import Mathlib

/-!
Verification development for the smtpc streaming mail toolkit.

Bytes are modelled as `Nat` (all values produced stay below 256; no byte
arithmetic here can overflow, so no explicit wrap-around is required).
Byte sources (`std::io::Read` suppliers) are modelled as `List Nat`: reading
one byte pops the head, an empty list is end-of-stream.  Caller output
buffers are modelled by the remaining free space (`Nat`); writing a byte
appends it to an accumulator and decrements the space.  Sinks used by the
writer components always accept every byte (matching the in-memory
`Cursor<Vec<u8>>` sinks of the crate's drivers and tests).

Loops of the Rust `read` implementations are modelled as fuel-indexed
recursions; each wrapper passes a fuel that provably dominates the loop's
variant, so `none` results are reserved for loops that genuinely never
terminate (one such loop exists and is exhibited).
-/

namespace Smtpc

instance {α β : Type} [DecidableEq α] [DecidableEq β] : DecidableEq (Except α β) :=
  fun a b =>
    match a, b with
    | Except.error x, Except.error y =>
      if h : x = y then Decidable.isTrue (by rw [h])
      else Decidable.isFalse (fun he => h (by cases he; rfl))
    | Except.ok x, Except.ok y =>
      if h : x = y then Decidable.isTrue (by rw [h])
      else Decidable.isFalse (fun he => h (by cases he; rfl))
    | Except.error _, Except.ok _ => Decidable.isFalse (fun he => Except.noConfusion he)
    | Except.ok _, Except.error _ => Decidable.isFalse (fun he => Except.noConfusion he)

/-! ## BoundaryDetector (src/utils/mod.rs) -/

/-- State of `BoundaryDetector`: the immutable delimiter and the match
cursor `pos` (`0..=boundary.length`). -/
structure BoundaryDetector where
  boundary : List Nat
  pos : Nat
  deriving Repr, DecidableEq

/-- Result of `BoundaryDetector::pass_byte`. -/
inductive BDResult where
  | NoMatch : BDResult
  | MatchBegin : BDResult
  | MatchBroke : List Nat → BDResult
  | MatchDone : BDResult
  deriving Repr, DecidableEq

namespace BoundaryDetector

def new (boundary : List Nat) : BoundaryDetector := ⟨boundary, 0⟩

def is_done (bd : BoundaryDetector) : Bool := bd.pos == bd.boundary.length

/-- `BoundaryDetector::pass_byte`, returning the result together with the
updated detector. -/
def pass_byte (bd : BoundaryDetector) (b : Nat) : BDResult × BoundaryDetector :=
  if bd.pos ≥ bd.boundary.length then
    (BDResult.MatchDone, bd)
  else if bd.boundary.getD bd.pos 0 = b then
    let pos' := bd.pos + 1
    if pos' = bd.boundary.length then
      (BDResult.MatchDone, { bd with pos := pos' })
    else
      (BDResult.MatchBegin, { bd with pos := pos' })
  else if bd.pos = 0 then
    (BDResult.NoMatch, bd)
  else
    (BDResult.MatchBroke (bd.boundary.take bd.pos), { bd with pos := 0 })

def reset (bd : BoundaryDetector) : BoundaryDetector := { bd with pos := 0 }

end BoundaryDetector

/-! ## MailHeaderReader (src/mail/header/reader.rs) -/

/-- Carriage return and line feed byte values. -/
def CR : Nat := 13
def LF : Nat := 10

/-- State of `MailHeaderReader` (the underlying source is passed separately). -/
structure MailHeaderReader where
  is_in_mail : Bool
  is_unexpected_eof : Bool
  is_finished : Bool
  rd_buf : List Nat
  bd : BoundaryDetector
  deriving Repr, DecidableEq

namespace MailHeaderReader

def new (in_mail : Bool) : MailHeaderReader :=
  { is_in_mail := in_mail
    is_unexpected_eof := false
    is_finished := false
    rd_buf := []
    bd := BoundaryDetector.new [CR, LF, CR, LF] }

end MailHeaderReader

/-- Result of one `MailHeaderReader::read` call.  `panic` models an
out-of-bounds buffer write (a Rust panic); a `none`-producing drain below
models an infinite loop. -/
inductive MhrRead where
  | ok (out : List Nat) (st : MailHeaderReader) (rest : List Nat)
  | err (st : MailHeaderReader) (rest : List Nat)
  | panic
  deriving Repr, DecidableEq

/-- The inner `while self.rd_buf_sz > 0` drain loop of
`MailHeaderReader::read`.  Each iteration copies
`min(rd_buf_sz, space)` bytes to the caller buffer and rotates them out of
`rd_buf`; an iteration that copies zero bytes leaves the state unchanged,
so the Rust loop then spins forever — modelled by `none`.  The `fuel`
argument only bounds the recursion; `fuel = rd_buf.length + 1` is enough to
either finish or reach the zero-progress state, and in the zero-progress
state the result is `none` for every fuel. -/
def mhrDrainGo : Nat → List Nat → Nat → List Nat →
    Option (List Nat × Nat × List Nat)
  | 0, _, _, _ => none
  | _ + 1, [], space, acc => some ([], space, acc)
  | fuel + 1, b :: rest, space, acc =>
    let rd_buf := b :: rest
    let common_sz := min rd_buf.length space
    if common_sz = 0 then
      mhrDrainGo fuel rd_buf space acc
    else
      mhrDrainGo fuel (rd_buf.drop common_sz) (space - common_sz)
        (acc ++ rd_buf.take common_sz)

def mhrDrain (rd_buf : List Nat) (space : Nat) (acc : List Nat) :
    Option (List Nat × Nat × List Nat) :=
  mhrDrainGo (rd_buf.length + 1) rd_buf space acc

/-- The outer `while buf.len() - processed_offset > 0` loop of
`MailHeaderReader::read`.  Returns the updated reader state, the remaining
source, the remaining buffer space and the bytes written, or `none` when
the inner drain loop diverges (or fuel runs out, which the wrapper's fuel
choice rules out), or `some .panic`-like marker via the dedicated
constructor when the loop writes past the buffer. -/
inductive MhrLoopRes where
  | ok (st : MailHeaderReader) (src : List Nat) (space : Nat) (out : List Nat)
  | panic
  deriving Repr, DecidableEq

def mhrLoopF : Nat → MailHeaderReader → List Nat → Nat → List Nat →
    Option MhrLoopRes
  | 0, _, _, _, _ => none
  | fuel + 1, st, src, space, acc =>
    if space = 0 then
      some (MhrLoopRes.ok st src space acc)
    else
      match mhrDrain st.rd_buf space acc with
      | none => none
      | some (rd', space', acc') =>
        let st := { st with rd_buf := rd' }
        match src with
        | [] =>
          -- source EOF: `sz == 0`
          if st.is_in_mail then
            some (MhrLoopRes.ok { st with is_unexpected_eof := true } [] space' acc')
          else
            some (MhrLoopRes.ok { st with is_finished := true } [] space' acc')
        | b :: src' =>
          match st.bd.pass_byte b with
          | (BDResult.NoMatch, bd') =>
            -- `buf[processed_offset] = b`: panics when the buffer is full
            if space' = 0 then
              some MhrLoopRes.panic
            else
              mhrLoopF fuel { st with bd := bd' } src' (space' - 1) (acc' ++ [b])
          | (BDResult.MatchBegin, bd') =>
            mhrLoopF fuel { st with bd := bd' } src' space' acc'
          | (BDResult.MatchDone, bd') =>
            some (MhrLoopRes.ok { st with bd := bd', is_finished := true } src' space' acc')
          | (BDResult.MatchBroke v, bd') =>
            mhrLoopF fuel { st with bd := bd', rd_buf := v ++ [b] } src' space' acc'

/-- Fuel dominating the variant of the outer loop: every iteration strictly
decreases `2*src.length + rd_buf.length + bd.pos` (drain steps shrink
`rd_buf`, byte steps consume a source byte). -/
def mhrFuel (st : MailHeaderReader) (src : List Nat) : Nat :=
  2 * src.length + st.rd_buf.length + st.bd.pos + 1

/-- `MailHeaderReader::read` with a caller buffer of `space` bytes.
`none` models a read call that never returns. -/
def MailHeaderReader.read (st : MailHeaderReader) (src : List Nat) (space : Nat) :
    Option MhrRead :=
  if space = 0 then
    some (MhrRead.ok [] st src)
  else if st.is_unexpected_eof then
    some (MhrRead.err st src)
  else if st.is_finished then
    some (MhrRead.ok [] st src)
  else
    match mhrLoopF (mhrFuel st src) st src space [] with
    | none => none
    | some MhrLoopRes.panic => some MhrRead.panic
    | some (MhrLoopRes.ok st' src' _ out) =>
      if out = [] ∧ st'.is_unexpected_eof then
        some (MhrRead.err st' src')
      else
        some (MhrRead.ok out st' src')

/-- Drive a fresh `MailHeaderReader` over `src` with an effectively
unbounded caller buffer (larger than any possible output), as
`read_to_end` does. -/
def mhrReadAll (in_mail : Bool) (src : List Nat) : Option MhrRead :=
  (MailHeaderReader.new in_mail).read src (src.length + 6)

/-! ## PartReader (src/encoding/multipart.rs) -/

inductive PartReaderState where
  | LookingForBoundary
  | FoundFinalBoundary
  | FoundMiddleBoundary
  deriving Repr, DecidableEq

inductive FinalBoundaryStateMatch where
  | None
  | Final
  | Middle
  deriving Repr, DecidableEq

structure PartReader where
  bd : BoundaryDetector
  final_bd : BoundaryDetector
  middle_bd : BoundaryDetector
  previous_char : Option Nat
  state : PartReaderState
  match_state : FinalBoundaryStateMatch
  recovery_buffer : List Nat
  deriving Repr, DecidableEq

namespace PartReader

/-- `PartReader::new`: builds the three delimiters from the boundary marker
and the newline style. -/
def new (boundary : List Nat) (use_single_nl : Bool) : PartReader :=
  let common_boundary :=
    (if use_single_nl then [LF, 45, 45] else [CR, LF, 45, 45]) ++ boundary
  let middle_boundary := if use_single_nl then [LF] else [CR, LF]
  let final_boundary := if use_single_nl then [45, 45, LF] else [45, 45, CR, LF]
  { state := PartReaderState.LookingForBoundary
    match_state := FinalBoundaryStateMatch.None
    recovery_buffer := []
    previous_char := none
    bd := BoundaryDetector.new common_boundary
    final_bd := BoundaryDetector.new final_boundary
    middle_bd := BoundaryDetector.new middle_boundary }

end PartReader

/-- Result of the `PartReader::read` loop: final state, remaining source,
remaining buffer space and written bytes, an error return, or a panic
(`panic!` arms / index underflow in the lenient-EOF check). -/
inductive PartLoopRes where
  | ok (st : PartReader) (src : List Nat) (space : Nat) (out : List Nat)
  | err (st : PartReader) (src : List Nat)
  | panic
  deriving Repr, DecidableEq

/-- The lenient-EOF inspection performed by `PartReader::read` when the
source ends while the common boundary is fully matched: compares
`middle_bd`'s position against both suffix lengths minus the trailing
newline.  `middle_boundary[middle_boundary.len() - 2]` panics when the
middle suffix is a single byte (LF-only newline style). -/
def partEofState (st : PartReader) : Option PartReaderState :=
  if st.bd.is_done then
    let mb := st.middle_bd.boundary
    let fb := st.final_bd.boundary
    if mb.getD (mb.length - 1) 0 = LF then
      if mb.length < 2 then none
      else
        let sub_len := if mb.getD (mb.length - 2) 0 = CR then 2 else 1
        let st1 :=
          if st.middle_bd.pos = mb.length - sub_len then
            PartReaderState.FoundFinalBoundary
          else st.state
        let st2 :=
          if st.middle_bd.pos = fb.length - sub_len then
            PartReaderState.FoundMiddleBoundary
          else st1
        some st2
    else some st.state
  else some st.state

/-- The `while last_buffer_len > 0` loop of `PartReader::read`. -/
def partLoopF : Nat → PartReader → List Nat → Nat → List Nat →
    Option PartLoopRes
  | 0, _, _, _, _ => none
  | fuel + 1, st, src, space, acc =>
    if space = 0 then
      some (PartLoopRes.ok st src space acc)
    else
      match st.state with
      | PartReaderState.FoundFinalBoundary => some (PartLoopRes.ok st src space acc)
      | PartReaderState.FoundMiddleBoundary => some (PartLoopRes.ok st src space acc)
      | PartReaderState.LookingForBoundary =>
        match st.recovery_buffer with
        | b :: recRest =>
          partLoopF fuel { st with recovery_buffer := recRest } src (space - 1)
            (acc ++ [b])
        | [] =>
          -- fetch the next byte: pending `previous_char` first, then the source
          let fetched : Option (Nat × Option Nat × List Nat) :=
            match st.previous_char with
            | some b => some (b, none, src)
            | none =>
              match src with
              | [] => none
              | b :: src' => some (b, none, src')
          match fetched with
          | none =>
            -- source EOF
            match partEofState st with
            | none => some PartLoopRes.panic
            | some newState =>
              match newState with
              | PartReaderState.LookingForBoundary => some (PartLoopRes.err st src)
              | _ => some (PartLoopRes.ok { st with state := newState } src space acc)
          | some (b, prev', src') =>
            let st := { st with previous_char := prev' }
            if st.bd.is_done then
              match st.match_state with
              | FinalBoundaryStateMatch.None =>
                let (mm, mbd') := st.middle_bd.pass_byte b
                let (fm, fbd') := st.final_bd.pass_byte b
                let st := { st with middle_bd := mbd', final_bd := fbd' }
                match mm, fm with
                | BDResult.NoMatch, BDResult.NoMatch =>
                  partLoopF fuel
                    { st with
                        recovery_buffer := st.recovery_buffer ++ st.bd.boundary
                        previous_char := some b
                        bd := st.bd.reset }
                    src' space acc
                | BDResult.MatchBegin, BDResult.NoMatch =>
                  partLoopF fuel
                    { st with match_state := FinalBoundaryStateMatch.Middle }
                    src' space acc
                | BDResult.MatchBegin, BDResult.MatchBroke _ =>
                  partLoopF fuel
                    { st with match_state := FinalBoundaryStateMatch.Middle }
                    src' space acc
                | BDResult.NoMatch, BDResult.MatchBegin =>
                  partLoopF fuel
                    { st with match_state := FinalBoundaryStateMatch.Final }
                    src' space acc
                | BDResult.MatchBroke _, BDResult.MatchBegin =>
                  partLoopF fuel
                    { st with match_state := FinalBoundaryStateMatch.Final }
                    src' space acc
                | BDResult.MatchBroke _, BDResult.MatchBroke second_data =>
                  partLoopF fuel
                    { st with
                        recovery_buffer :=
                          st.recovery_buffer ++ st.bd.boundary ++ second_data
                        previous_char := some b
                        bd := st.bd.reset }
                    src' space acc
                | _, _ => some PartLoopRes.panic
              | FinalBoundaryStateMatch.Middle =>
                let (mm, mbd') := st.middle_bd.pass_byte b
                let st := { st with middle_bd := mbd' }
                match mm with
                | BDResult.MatchDone =>
                  partLoopF fuel
                    { st with state := PartReaderState.FoundMiddleBoundary }
                    src' space acc
                | BDResult.MatchBroke matched_data =>
                  partLoopF fuel
                    { st with
                        recovery_buffer :=
                          st.recovery_buffer ++ st.bd.boundary ++ matched_data
                        previous_char := some b
                        bd := st.bd.reset }
                    src' space acc
                | BDResult.MatchBegin =>
                  partLoopF fuel st src' space acc
                | BDResult.NoMatch => some PartLoopRes.panic
              | FinalBoundaryStateMatch.Final =>
                let (fm, fbd') := st.final_bd.pass_byte b
                let st := { st with final_bd := fbd' }
                match fm with
                | BDResult.MatchDone =>
                  partLoopF fuel
                    { st with state := PartReaderState.FoundFinalBoundary }
                    src' space acc
                | BDResult.MatchBroke matched_data =>
                  partLoopF fuel
                    { st with
                        recovery_buffer :=
                          st.recovery_buffer ++ st.bd.boundary ++ matched_data
                        previous_char := some b
                        bd := st.bd.reset }
                    src' space acc
                | BDResult.MatchBegin =>
                  partLoopF fuel st src' space acc
                | BDResult.NoMatch => some PartLoopRes.panic
            else
              match st.bd.pass_byte b with
              | (BDResult.MatchDone, bd') =>
                partLoopF fuel
                  { st with bd := bd', match_state := FinalBoundaryStateMatch.None }
                  src' space acc
              | (BDResult.MatchBegin, bd') =>
                partLoopF fuel { st with bd := bd' } src' space acc
              | (BDResult.MatchBroke matched_data, bd') =>
                partLoopF fuel
                  { st with
                      bd := bd'
                      recovery_buffer := st.recovery_buffer ++ matched_data
                      previous_char := some b }
                  src' space acc
              | (BDResult.NoMatch, _) =>
                -- literal byte: `buf[i] = b`, `last_buffer_len -= 1`
                partLoopF fuel st src' (space - 1) (acc ++ [b])

/-- Fuel dominating the `PartReader::read` loop variant
`4*src + recovery + 3*previous_char + 2*(positions)`. -/
def partFuel (st : PartReader) (src : List Nat) : Nat :=
  4 * src.length + st.recovery_buffer.length +
    3 * (if st.previous_char.isSome then 1 else 0) +
    2 * (st.bd.pos + st.middle_bd.pos + st.final_bd.pos) + 1

/-- `PartReader::read` with a caller buffer of `space` bytes. -/
def PartReader.read (st : PartReader) (src : List Nat) (space : Nat) :
    Option PartLoopRes :=
  partLoopF (partFuel st src) st src space []

/-- Drive a fresh `PartReader` over `src` with an unbounded caller buffer. -/
def partReadAll (boundary : List Nat) (use_single_nl : Bool) (src : List Nat) :
    Option PartLoopRes :=
  (PartReader.new boundary use_single_nl).read src (src.length + 1)

/-! ## The `base64` crate (external dependency of src/encoding/base64.rs)

The crate's standard-alphabet encoder/decoder, as used through
`base64::encode`, `base64::decode`, `base64::encode_config_slice` and
`base64::decode_config_slice` with `base64::STANDARD`.  The decoder of the
crate generation this code builds against does not reject non-canonical
trailing bits; none of the claims depend on that corner. -/

/-- Sextet value to standard-alphabet ASCII byte. -/
def b64Char (n : Nat) : Nat :=
  if n < 26 then 65 + n
  else if n < 52 then 97 + (n - 26)
  else if n < 62 then 48 + (n - 52)
  else if n = 62 then 43
  else 47

/-- ASCII byte to sextet value; `none` for bytes outside the alphabet
(including `=`). -/
def b64Val (c : Nat) : Option Nat :=
  if 65 ≤ c ∧ c ≤ 90 then some (c - 65)
  else if 97 ≤ c ∧ c ≤ 122 then some (c - 97 + 26)
  else if 48 ≤ c ∧ c ≤ 57 then some (c - 48 + 52)
  else if c = 43 then some 62
  else if c = 47 then some 63
  else none

/-- The padding byte `b'='`. -/
def PAD : Nat := 61

/-- `base64::encode` (also `encode_config_slice`): three input bytes per
four-character group, final one or two bytes padded with `=`. -/
def base64Encode : List Nat → List Nat
  | [] => []
  | [a] => [b64Char (a / 4), b64Char (a % 4 * 16), PAD, PAD]
  | [a, b] => [b64Char (a / 4), b64Char (a % 4 * 16 + b / 16), b64Char (b % 16 * 4), PAD]
  | a :: b :: c :: rest =>
    b64Char (a / 4) :: b64Char (a % 4 * 16 + b / 16) ::
      b64Char (b % 16 * 4 + c / 64) :: b64Char (c % 64) :: base64Encode rest

/-- `base64::decode_config_slice` on one four-character group: `=` may only
occupy the trailing positions, every other byte must be in the alphabet. -/
def b64DecodeGroup (c1 c2 c3 c4 : Nat) : Option (List Nat) :=
  match b64Val c1, b64Val c2 with
  | some a, some b =>
    if c3 = PAD then
      if c4 = PAD then some [a * 4 + b / 16] else none
    else
      match b64Val c3 with
      | some c =>
        if c4 = PAD then some [a * 4 + b / 16, b % 16 * 16 + c / 4]
        else
          match b64Val c4 with
          | some d => some [a * 4 + b / 16, b % 16 * 16 + c / 4, c % 4 * 64 + d]
          | none => none
      | none => none
  | _, _ => none

/-- `base64::decode` on a whole (padded) input: groups of four, padding
admitted only in the final group. -/
def base64CrateDecode : List Nat → Option (List Nat)
  | [] => some []
  | c1 :: c2 :: c3 :: c4 :: rest =>
    match b64DecodeGroup c1 c2 c3 c4 with
    | none => none
    | some bs =>
      match rest with
      | [] => some bs
      | _ :: _ =>
        if c3 = PAD ∨ c4 = PAD then none
        else
          match base64CrateDecode rest with
          | none => none
          | some bs' => some (bs ++ bs')
  | _ => none

/-! ## Base64Reader (src/encoding/base64.rs) -/

structure Base64Reader where
  in_buf : List Nat
  rd_buf : List Nat
  padding_cnt : Nat
  is_err : Bool
  deriving Repr, DecidableEq

namespace Base64Reader

def new : Base64Reader :=
  { in_buf := [], rd_buf := [], padding_cnt := 0, is_err := false }

end Base64Reader

inductive B64Error where
  | tooMuchPadding
  | nonPaddingAfterPadding
  | unexpectedEof
  | decodeErr
  deriving Repr, DecidableEq

inductive B64LoopRes where
  | ok (st : Base64Reader) (src : List Nat) (space : Nat) (out : List Nat)
  | err (e : B64Error) (st : Base64Reader) (src : List Nat)
  deriving Repr, DecidableEq

/-- The `while buf.len() - buffer_offset > 0` loop of `Base64Reader::read`.
Note that the Rust decode-error paths (`?` after `decode_config_slice`) do
NOT set `is_err`, and that the two padding-error paths set `is_err` even
though no path ever reads it. -/
def b64LoopF : Nat → Base64Reader → List Nat → Nat → List Nat →
    Option B64LoopRes
  | 0, _, _, _, _ => none
  | fuel + 1, st, src, space, acc =>
    if space = 0 then
      some (B64LoopRes.ok st src space acc)
    else
      match st.rd_buf with
      | b :: rdRest =>
        let rd_buf := b :: rdRest
        let common_sz := min space rd_buf.length
        b64LoopF fuel { st with rd_buf := rd_buf.drop common_sz } src
          (space - common_sz) (acc ++ rd_buf.take common_sz)
      | [] =>
        match src with
        | [] =>
          if st.in_buf.length ≠ 0 then
            some (B64LoopRes.err B64Error.unexpectedEof st [])
          else
            some (B64LoopRes.ok st [] space acc)
        | b :: src' =>
          if b = PAD ∧ st.padding_cnt ≥ 2 then
            some (B64LoopRes.err B64Error.tooMuchPadding
              { st with is_err := true } src')
          else
            let st := if b = PAD then { st with padding_cnt := st.padding_cnt + 1 }
              else st
            if st.padding_cnt > 0 ∧ b ≠ PAD then
              some (B64LoopRes.err B64Error.nonPaddingAfterPadding
                { st with is_err := true } src')
            else if st.in_buf.length < 3 then
              b64LoopF fuel { st with in_buf := st.in_buf ++ [b] } src' space acc
            else
              -- `in_buf_sz == 3`: the group is complete, decode it
              match st.in_buf with
              | [c1, c2, c3] =>
                let st := { st with in_buf := [] }
                match b64DecodeGroup c1 c2 c3 b with
                | none => some (B64LoopRes.err B64Error.decodeErr st src')
                | some bs =>
                  if space ≥ 3 then
                    b64LoopF fuel st src' (space - bs.length) (acc ++ bs)
                  else
                    b64LoopF fuel { st with rd_buf := bs } src' space acc
              | _ => none

/-- Fuel dominating the `Base64Reader::read` loop variant
`2*src + rd_buf + in_buf`. -/
def b64Fuel (st : Base64Reader) (src : List Nat) : Nat :=
  2 * src.length + st.rd_buf.length + st.in_buf.length + 1

/-- `Base64Reader::read` with a caller buffer of `space` bytes.  There is
no `is_err` short-circuit at entry: the flag is never consulted. -/
def Base64Reader.read (st : Base64Reader) (src : List Nat) (space : Nat) :
    Option B64LoopRes :=
  if space = 0 then
    some (B64LoopRes.ok st src space [])
  else
    b64LoopF (b64Fuel st src) st src space []

/-- Drive a fresh `Base64Reader` over `src` with an unbounded caller buffer. -/
def b64ReadAll (src : List Nat) : Option B64LoopRes :=
  Base64Reader.new.read src (src.length + 3)

/-! ## Base64Writer (src/encoding/base64.rs)

The sink is the in-memory cursor of the crate's drivers: every write is
accepted in full, so `flush_write_buffer` always empties `w_buf` in one
step and never reports `WriteZero`. -/

structure Base64Writer where
  in_buf : List Nat
  w_buf : List Nat
  is_done : Bool
  finalize_on_flush : Bool
  deriving Repr, DecidableEq

namespace Base64Writer

def new (finalize_on_flush : Bool) : Base64Writer :=
  { in_buf := [], w_buf := [], is_done := false, finalize_on_flush }

/-- `Base64Writer::flush_write_buffer` against an always-accepting sink:
the pending encoded bytes reach the sink. -/
def flush_write_buffer (st : Base64Writer) : Base64Writer × List Nat :=
  ({ st with w_buf := [] }, st.w_buf)

/-- `Base64Writer::read_buffer_into_write_buffer`: encodes whatever is in
`in_buf` (also a 1- or 2-byte partial group, which gets padded). -/
def read_buffer_into_write_buffer (st : Base64Writer) : Base64Writer :=
  { st with in_buf := [], w_buf := base64Encode st.in_buf }

/-- `Base64Writer::flush_buffers`. -/
def flush_buffers (st : Base64Writer) : Base64Writer × List Nat :=
  let (st, o1) := flush_write_buffer st
  let st := read_buffer_into_write_buffer st
  let (st, o2) := flush_write_buffer st
  (st, o1 ++ o2)

/-- `Base64Writer::finalize`; `none` models the error return when the
writer is already finalized. -/
def finalize (st : Base64Writer) : Option (Base64Writer × List Nat) :=
  if st.is_done then none
  else
    let (st, o) := flush_buffers st
    some ({ st with is_done := true }, o)

end Base64Writer

/-- The `while buf.len() - processed_sz > 0` loop of `Base64Writer::write`.
Returns writer state, processed count and sink output. -/
def b64wLoopF : Nat → Base64Writer → List Nat → Nat → List Nat →
    Option (Base64Writer × Nat × List Nat)
  | 0, _, _, _, _ => none
  | fuel + 1, st, buf, processed, out =>
    if buf.length - processed = 0 then
      some (st, processed, out)
    else
      match st.w_buf with
      | w :: wRest =>
        b64wLoopF fuel { st with w_buf := [] } buf processed (out ++ w :: wRest)
      | [] =>
        if 0 < st.in_buf.length ∧ st.in_buf.length < 3 then
          let max_common_sz := min (buf.length - processed) (3 - st.in_buf.length)
          -- the Rust copy reads `&buf[..max_common_sz]`, i.e. from the
          -- start of the caller buffer, not from `processed_sz`
          b64wLoopF fuel { st with in_buf := st.in_buf ++ buf.take max_common_sz }
            buf (processed + max_common_sz) out
        else if st.in_buf.length = 3 then
          let enc := base64Encode st.in_buf
          b64wLoopF fuel { st with in_buf := [], w_buf := [] } buf processed
            (out ++ enc)
        else if processed + 3 ≤ buf.length then
          let g := ((buf.drop processed).take 3)
          b64wLoopF fuel st buf (processed + 3) (out ++ base64Encode g)
        else
          let tail := buf.drop processed
          b64wLoopF fuel { st with in_buf := tail } buf (processed + tail.length) out

def b64wFuel (st : Base64Writer) (buf : List Nat) : Nat :=
  2 * buf.length + st.in_buf.length + st.w_buf.length + 1

/-- `Base64Writer::write`; `none` models the post-finalization error. -/
def Base64Writer.write (st : Base64Writer) (buf : List Nat) :
    Option (Base64Writer × Nat × List Nat) :=
  if st.is_done then none
  else if buf = [] then some (st, 0, [])
  else b64wLoopF (b64wFuel st buf) st buf 0 []

/-- `Base64Writer::flush` against an always-accepting sink. -/
def Base64Writer.flush (st : Base64Writer) : Option (Base64Writer × List Nat) :=
  if st.is_done then some (st, [])
  else if st.finalize_on_flush then
    -- the recursion-guard dance around `finalize` only toggles the flag
    -- temporarily; the observable result is that of `finalize`
    match Base64Writer.finalize { st with finalize_on_flush := false } with
    | none => none
    | some (st', o) => some ({ st' with finalize_on_flush := true }, o)
  else
    some (Base64Writer.flush_buffers st)

/-! ## Quoted-Printable (src/encoding/quoted_printable.rs, src/utils/hex.rs) -/

/-- `is_valid_hex_digit`: uppercase-only by design (its doc comment:
"Because quoted printable should accept only uppercase hex digits this
function accepts only uppercase data"). -/
def is_valid_hex_digit (num : Nat) : Bool :=
  (48 ≤ num ∧ num ≤ 57) ∨ (65 ≤ num ∧ num ≤ 70)

/-- Value of one (uppercase) hex digit, as `u8::from_str_radix` reads it. -/
def hexDigitVal (c : Nat) : Nat :=
  if 48 ≤ c ∧ c ≤ 57 then c - 48 else c - 55

/-- `encode_hex_char` (src/utils/hex.rs): two uppercase hex digits,
high nibble first. -/
def encode_hex_char (b : Nat) : List Nat :=
  let first := b % 16
  let second := b / 16 % 16
  let first := if first < 10 then first + 48 else first + 55
  let second := if second < 10 then second + 48 else second + 55
  [second, first]

/-- State of `QuotedPrintableWriter` relevant between calls (its 5-byte
staging buffer is always fully flushed inside `write`; the sink is the
always-accepting in-memory cursor). -/
structure QuotedPrintableWriter where
  line_len : Nat
  last_written_char : Nat
  deriving Repr, DecidableEq

namespace QuotedPrintableWriter

def new : QuotedPrintableWriter := { line_len := 0, last_written_char := 0 }

/-- One iteration of the `for b in buf` loop of
`QuotedPrintableWriter::write`: soft-break insertion then the encoded
unit. -/
def step (st : QuotedPrintableWriter) (b : Nat) :
    QuotedPrintableWriter × List Nat :=
  let (enc_char, enc_char_sz) :=
    if b < 128 ∧ b ≠ 61 then ([b], 1) else (61 :: encode_hex_char b, 3)
  let line_len := if b = LF then 0 else st.line_len + enc_char_sz
  if line_len + enc_char_sz > 76 then
    let brk := if st.last_written_char ≠ LF then [61, LF] else [LF]
    ({ line_len := 0, last_written_char := b }, brk ++ enc_char)
  else
    ({ line_len := line_len, last_written_char := b }, enc_char)

/-- `QuotedPrintableWriter::write` over a chunk (every byte is processed;
the cursor sink accepts everything). -/
def write (st : QuotedPrintableWriter) : List Nat → QuotedPrintableWriter × List Nat
  | [] => (st, [])
  | b :: rest =>
    let (st', o) := step st b
    let (st'', o') := write st' rest
    (st'', o ++ o')

end QuotedPrintableWriter

/-- `QuotedPrintableEncoder::encode_to_string`: drive a fresh writer over
the whole input (no finalization step exists for this writer). -/
def qpEncodeAll (input : List Nat) : List Nat :=
  (QuotedPrintableWriter.new.write input).2

/-- State of `QuotedPrintableReader` between calls. -/
structure QuotedPrintableReader where
  buf : Nat
  buf_offset : Nat
  is_error : Bool
  deriving Repr, DecidableEq

namespace QuotedPrintableReader

def new : QuotedPrintableReader := { buf := 0, buf_offset := 0, is_error := false }

end QuotedPrintableReader

/-- The `for b in local_buf` loop of `QuotedPrintableReader::read`:
processes the bytes fetched from the source, accumulating decoded output,
stopping early (successfully) if the caller buffer were ever full, and
returning `Except.error` with the updated state on an invalid escape. -/
def qprGo (space : Nat) : QuotedPrintableReader → List Nat → List Nat →
    Except QuotedPrintableReader (QuotedPrintableReader × List Nat)
  | st, [], acc => Except.ok (st, acc)
  | st, b :: rest, acc =>
    if space ≤ acc.length then
      Except.ok (st, acc)
    else if st.buf_offset = 0 then
      if b = 61 then qprGo space { st with buf_offset := 1 } rest acc
      else qprGo space st rest (acc ++ [b])
    else if st.buf_offset = 1 then
      if b = LF then qprGo space { st with buf_offset := 0 } rest acc
      else if b = CR then qprGo space { st with buf_offset := 3 } rest acc
      else if ¬ is_valid_hex_digit b then
        Except.error { st with is_error := true }
      else qprGo space { st with buf := b, buf_offset := 2 } rest acc
    else if st.buf_offset = 2 then
      if ¬ is_valid_hex_digit b then
        Except.error { st with is_error := true }
      else
        qprGo space { st with buf_offset := 0 } rest
          (acc ++ [hexDigitVal st.buf * 16 + hexDigitVal b])
    else
      -- `buf_offset == 3`: after `=` CR only LF may follow
      if b ≠ LF then Except.error { st with is_error := true }
      else qprGo space { st with buf_offset := 0 } rest acc

/-- `QuotedPrintableReader::read` with a caller buffer of `space` bytes:
one bulk source read of up to `space` bytes, then the processing loop.
On error the fetched bytes stay consumed and the produced output is
discarded. -/
def QuotedPrintableReader.read (st : QuotedPrintableReader) (src : List Nat)
    (space : Nat) :
    Except (QuotedPrintableReader × List Nat)
      (List Nat × QuotedPrintableReader × List Nat) :=
  if st.is_error then Except.error (st, src)
  else if space = 0 then Except.ok ([], st, src)
  else
    let len := min space src.length
    let local_buf := src.take len
    let src' := src.drop len
    match qprGo space st local_buf [] with
    | Except.error st' => Except.error (st', src')
    | Except.ok (st', out) => Except.ok (out, st', src')

/-- Drive a fresh `QuotedPrintableReader` over `src` with an unbounded
caller buffer. -/
def qpReadAll (src : List Nat) :
    Except (QuotedPrintableReader × List Nat)
      (List Nat × QuotedPrintableReader × List Nat) :=
  QuotedPrintableReader.new.read src (src.length + 1)

/-! ## String-level Base64 encoder/decoder (Base64Encoder, Base64Decoder)

`Base64Decoder::decode_to_string` runs `base64::decode` and then
`String::from_utf8`, so its result must be valid UTF-8. -/

/-- UTF-8 validity of a byte sequence, as `String::from_utf8` checks it. -/
def validUtf8 : List Nat → Bool
  | [] => true
  | b :: rest =>
    if b < 128 then validUtf8 rest
    else if b < 194 then false
    else if b ≤ 223 then
      match rest with
      | c :: r => decide (128 ≤ c ∧ c ≤ 191) && validUtf8 r
      | [] => false
    else if b ≤ 239 then
      match rest with
      | c :: d :: r =>
        let lo := if b = 224 then 160 else 128
        let hi := if b = 237 then 159 else 191
        decide (lo ≤ c ∧ c ≤ hi ∧ 128 ≤ d ∧ d ≤ 191) && validUtf8 r
      | _ => false
    else if b ≤ 244 then
      match rest with
      | c :: d :: e :: r =>
        let lo := if b = 240 then 144 else 128
        let hi := if b = 244 then 143 else 191
        decide (lo ≤ c ∧ c ≤ hi ∧ 128 ≤ d ∧ d ≤ 191 ∧ 128 ≤ e ∧ e ≤ 191) &&
          validUtf8 r
      | _ => false
    else false

/-- `Base64Encoder::encode_to_string` (into an empty result string). -/
def base64EncodeToString (input : List Nat) : List Nat :=
  base64Encode input

/-- `Base64Decoder::decode_to_string` (into an empty result string):
`base64::decode` then the UTF-8 check. -/
def base64DecodeToString (input : List Nat) : Option (List Nat) :=
  match base64CrateDecode input with
  | none => none
  | some bs => if validUtf8 bs then some bs else none

/-! ## Claim inputs and drivers -/

/-- The boundary marker `"some-boundary"`. -/
def someBoundaryMarker : List Nat :=
  [115, 111, 109, 101, 45, 98, 111, 117, 110, 100, 97, 114, 121]

/-- The part body `"some text"`. -/
def someTextBytes : List Nat := [115, 111, 109, 101, 32, 116, 101, 120, 116]

/-- `"some text\r\n--some-boundary--\r\n"`. -/
def finalBoundaryInput : List Nat :=
  someTextBytes ++ [CR, LF, 45, 45] ++ someBoundaryMarker ++ [45, 45, CR, LF]

/-- `"some text\r\n--some-boundary\r\n"`. -/
def middleBoundaryInput : List Nat :=
  someTextBytes ++ [CR, LF, 45, 45] ++ someBoundaryMarker ++ [CR, LF]

/-- The `PartReader` state after consuming `finalBoundaryInput`. -/
def c4FinalState : PartReader :=
  { bd := ⟨[CR, LF, 45, 45] ++ someBoundaryMarker, 17⟩
    final_bd := ⟨[45, 45, CR, LF], 4⟩
    middle_bd := ⟨[CR, LF], 0⟩
    previous_char := none
    state := PartReaderState.FoundFinalBoundary
    match_state := FinalBoundaryStateMatch.Final
    recovery_buffer := [] }

/-- The `PartReader` state after consuming `middleBoundaryInput`. -/
def c4MiddleState : PartReader :=
  { bd := ⟨[CR, LF, 45, 45] ++ someBoundaryMarker, 17⟩
    final_bd := ⟨[45, 45, CR, LF], 0⟩
    middle_bd := ⟨[CR, LF], 2⟩
    previous_char := none
    state := PartReaderState.FoundMiddleBoundary
    match_state := FinalBoundaryStateMatch.Middle
    recovery_buffer := [] }

/-- The sixteen bytes `is_valid_hex_digit` accepts. -/
def qpHexDigits : List Nat :=
  [48, 49, 50, 51, 52, 53, 54, 55, 56, 57, 65, 66, 67, 68, 69, 70]

/-- Padding discipline of a whole Base64 stream: at most two `=` bytes and
nothing but `=` after the first `=`. -/
def b64PadOk (src : List Nat) : Bool :=
  ((src.dropWhile (· ≠ PAD)).all (· = PAD)) && src.count PAD ≤ 2

/-- All bytes of `src` are in the Base64 alphabet (no `=`, no junk). -/
def b64AllAlphabet (src : List Nat) : Bool :=
  src.all (fun c => (b64Val c).isSome)

/-- `write_all` of a whole buffer through `Base64Writer` followed by
`finalize`, collecting the sink contents. -/
def b64WriterEncode (d : List Nat) : Option (List Nat) :=
  match (Base64Writer.new false).write d with
  | none => none
  | some (st, _, out) =>
    match st.finalize with
    | none => none
    | some (_, o2) => some (out ++ o2)

/-- Round trip `d` through `Base64Writer` (with `finalize`) and back
through `Base64Reader`. -/
def b64WriterThenReader (d : List Nat) : Option (List Nat) :=
  match b64WriterEncode d with
  | none => none
  | some enc =>
    match b64ReadAll enc with
    | some (B64LoopRes.ok _ _ _ out) => some out
    | _ => none

/-- Round trip `d` through `QuotedPrintableWriter` and back through
`QuotedPrintableReader`. -/
def qpRoundTrip (d : List Nat) : Option (List Nat) :=
  match qpReadAll (qpEncodeAll d) with
  | Except.ok (out, _, _) => some out
  | Except.error _ => none

/-- Observable view of a `PartReader` drive: terminal reader state, body
bytes produced, remaining source. -/
def partDriveView : Option PartLoopRes → Option (PartReaderState × List Nat × List Nat)
  | some (PartLoopRes.ok st src _ out) => some (st.state, out, src)
  | _ => none

/-- Bytes a `PartReader` state holds speculatively: replay queue, the
re-queued breaking byte, and the partially matched pieces of the three
delimiters (in consumption order; the invariants make at most one of the
suffix components non-empty). -/
def partPendingBytes (st : PartReader) : List Nat :=
  st.recovery_buffer ++
    (match st.previous_char with | some b => [b] | none => []) ++
    (if st.bd.is_done then st.bd.boundary else st.bd.boundary.take st.bd.pos) ++
    st.middle_bd.boundary.take st.middle_bd.pos ++
    st.final_bd.boundary.take st.final_bd.pos

/-- Reachable-state invariant of the `PartReader::read` loop for a reader
built by `PartReader.new marker nl` (while still looking for the
boundary): the three delimiters, cursor bounds, and the mutual-exclusion
discipline between replay queue, common detector and suffix detectors. -/
def PartInv (nl : Bool) (marker : List Nat) (st : PartReader) : Prop :=
  st.state = PartReaderState.LookingForBoundary ∧
  st.bd.boundary = (if nl then [LF, 45, 45] else [CR, LF, 45, 45]) ++ marker ∧
  st.middle_bd.boundary = (if nl then [LF] else [CR, LF]) ∧
  st.final_bd.boundary = (if nl then [45, 45, LF] else [45, 45, CR, LF]) ∧
  st.bd.pos ≤ st.bd.boundary.length ∧
  st.middle_bd.pos ≤ st.middle_bd.boundary.length ∧
  st.final_bd.pos ≤ st.final_bd.boundary.length ∧
  ((st.previous_char ≠ none ∨ st.recovery_buffer ≠ []) →
    st.bd.pos = 0 ∧ st.middle_bd.pos = 0 ∧ st.final_bd.pos = 0) ∧
  (st.bd.pos < st.bd.boundary.length →
    st.middle_bd.pos = 0 ∧ st.final_bd.pos = 0) ∧
  (st.match_state = FinalBoundaryStateMatch.None →
    st.middle_bd.pos = 0 ∧ st.final_bd.pos = 0) ∧
  (st.bd.pos = st.bd.boundary.length →
    st.match_state = FinalBoundaryStateMatch.Middle →
    1 ≤ st.middle_bd.pos ∧ st.middle_bd.pos < st.middle_bd.boundary.length ∧
      st.final_bd.pos = 0) ∧
  (st.bd.pos = st.bd.boundary.length →
    st.match_state = FinalBoundaryStateMatch.Final →
    1 ≤ st.final_bd.pos ∧ st.final_bd.pos < st.final_bd.boundary.length ∧
      st.middle_bd.pos = 0)

/-- Loop variant dominating `PartReader::read` for states with no pending
`previous_char`. -/
def partFuelN (st : PartReader) (src : List Nat) : Nat :=
  4 * src.length + st.recovery_buffer.length +
    2 * (st.bd.pos + st.middle_bd.pos + st.final_bd.pos) + 1

/-! ## Helper lemmas -/

theorem take_succ_getD (l : List Nat) (n : Nat) (h : n < l.length) :
    l.take (n + 1) = l.take n ++ [l.getD n 0] := by
  rw [List.take_succ, List.getD_eq_getElem?_getD, List.getElem?_eq_getElem h]
  rfl

/-- `pass_byte` case analysis for a detector that is not yet done. -/
theorem pass_byte_cases (bd : BoundaryDetector) (b : Nat)
    (hlt : bd.pos < bd.boundary.length) :
    (bd.boundary.getD bd.pos 0 = b ∧ bd.pos + 1 = bd.boundary.length ∧
      bd.pass_byte b = (BDResult.MatchDone, { bd with pos := bd.pos + 1 })) ∨
    (bd.boundary.getD bd.pos 0 = b ∧ bd.pos + 1 ≠ bd.boundary.length ∧
      bd.pass_byte b = (BDResult.MatchBegin, { bd with pos := bd.pos + 1 })) ∨
    (bd.boundary.getD bd.pos 0 ≠ b ∧ bd.pos = 0 ∧
      bd.pass_byte b = (BDResult.NoMatch, bd)) ∨
    (bd.boundary.getD bd.pos 0 ≠ b ∧ bd.pos ≠ 0 ∧
      bd.pass_byte b =
        (BDResult.MatchBroke (bd.boundary.take bd.pos), { bd with pos := 0 })) := by
  rcases Decidable.em (bd.boundary.getD bd.pos 0 = b) with he | he
  · rcases Decidable.em (bd.pos + 1 = bd.boundary.length) with hd | hd
    · left
      refine ⟨he, hd, ?_⟩
      rw [List.getD_eq_getElem?_getD] at he
      simp [BoundaryDetector.pass_byte, Nat.not_le_of_lt hlt, he, hd]
    · right; left
      refine ⟨he, hd, ?_⟩
      rw [List.getD_eq_getElem?_getD] at he
      simp [BoundaryDetector.pass_byte, Nat.not_le_of_lt hlt, he, hd]
  · rcases Decidable.em (bd.pos = 0) with hz | hz
    · right; right; left
      refine ⟨he, hz, ?_⟩
      rw [List.getD_eq_getElem?_getD] at he
      rw [hz] at he
      simp [BoundaryDetector.pass_byte, Nat.not_le_of_lt hlt, he, hz,
        List.length_pos.mp (hz ▸ hlt)]
    · right; right; right
      refine ⟨he, hz, ?_⟩
      rw [List.getD_eq_getElem?_getD] at he
      simp [BoundaryDetector.pass_byte, Nat.not_le_of_lt hlt, he, hz]

theorem mhrDrainGo_full (rd_buf : List Nat) (space : Nat) (acc : List Nat)
    (h : rd_buf.length ≤ space) :
    mhrDrainGo (rd_buf.length + 1) rd_buf space acc =
      some ([], space - rd_buf.length, acc ++ rd_buf) := by
  cases rd_buf with
  | nil => simp [mhrDrainGo]
  | cons b rest =>
    have hmin : min (b :: rest).length space = (b :: rest).length :=
      Nat.min_eq_left h
    have hne : ¬ (min (b :: rest).length space = 0) := by
      rw [hmin]; simp
    simp only [mhrDrainGo, hmin, hne, if_false, List.drop_length, List.take_length]
    cases rest with
    | nil => rfl
    | cons c r => rfl

theorem mhrDrain_full (rd_buf : List Nat) (space : Nat) (acc : List Nat)
    (h : rd_buf.length ≤ space) :
    mhrDrain rd_buf space acc = some ([], space - rd_buf.length, acc ++ rd_buf) :=
  mhrDrainGo_full rd_buf space acc h

/-- Conservation invariant of the `MailHeaderReader::read` loop: with
enough buffer space the loop terminates without panic, empties the
recovery buffer, and emits every consumed byte exactly once and in order,
except the bytes held by the detector's partial match. -/
theorem mhrLoop_conserves (fuel : Nat) :
    ∀ st src space acc,
      mhrFuel st src ≤ fuel →
      src.length + st.rd_buf.length + st.bd.pos < space →
      st.bd.boundary = [CR, LF, CR, LF] →
      st.bd.pos < 4 →
      ∃ st' src' space' out,
        mhrLoopF fuel st src space acc = some (MhrLoopRes.ok st' src' space' out) ∧
        acc ++ st.rd_buf ++ st.bd.boundary.take st.bd.pos ++ src =
          out ++ st'.bd.boundary.take st'.bd.pos ++ src' ∧
        st'.rd_buf = [] ∧
        st'.bd.boundary = [CR, LF, CR, LF] := by
  induction fuel with
  | zero =>
    intro st src space acc hfuel hspace hbd hpos
    exfalso
    have h1 : 1 ≤ mhrFuel st src := by simp [mhrFuel]
    omega
  | succ n ih =>
    intro st src space acc hfuel hspace hbd hpos
    have hspace0 : ¬ (space = 0) := by omega
    have hdrain := mhrDrain_full st.rd_buf space acc (by omega)
    cases src with
    | nil =>
      by_cases him : st.is_in_mail
      · refine ⟨⟨st.is_in_mail, true, st.is_finished, [], st.bd⟩, [],
          space - st.rd_buf.length, acc ++ st.rd_buf, ?_, by simp, rfl, hbd⟩
        simp [mhrLoopF, hspace0, hdrain, him]
      · refine ⟨⟨st.is_in_mail, st.is_unexpected_eof, true, [], st.bd⟩, [],
          space - st.rd_buf.length, acc ++ st.rd_buf, ?_, by simp, rfl, hbd⟩
        simp [mhrLoopF, hspace0, hdrain, him]
    | cons b src' =>
      have hfuelE : 2 * (src'.length + 1) + st.rd_buf.length + st.bd.pos + 1 ≤ n + 1 := by
        simpa [mhrFuel] using hfuel
      have hspaceE : src'.length + 1 + st.rd_buf.length + st.bd.pos < space := by
        simpa using hspace
      have hlt : st.bd.pos < st.bd.boundary.length := by
        rw [hbd]
        simpa using hpos
      have htake : st.bd.boundary.take (st.bd.pos + 1) =
          st.bd.boundary.take st.bd.pos ++ [st.bd.boundary.getD st.bd.pos 0] :=
        take_succ_getD _ _ hlt
      rcases pass_byte_cases st.bd b hlt with
        ⟨heq, hdone, hpb⟩ | ⟨heq, hnd, hpb⟩ | ⟨hne, hz, hpb⟩ | ⟨hne, hz, hpb⟩
      · -- MatchDone: the loop stops in the finished state
        refine ⟨⟨st.is_in_mail, st.is_unexpected_eof, true, [],
            { st.bd with pos := st.bd.pos + 1 }⟩, src', space - st.rd_buf.length,
          acc ++ st.rd_buf, ?_, ?_, rfl, hbd⟩
        · simp [mhrLoopF, hspace0, hdrain, hpb]
        · rw [heq] at htake
          simp [htake]
      · -- MatchBegin: the byte is buffered in the detector
        have hpos1 : st.bd.pos + 1 < 4 := by
          have hne4 : st.bd.pos + 1 ≠ 4 := by rw [hbd] at hnd; simpa using hnd
          omega
        obtain ⟨st', src'', space'', out, hrun, heqr, hrd', hbd'⟩ :=
          ih ⟨st.is_in_mail, st.is_unexpected_eof, st.is_finished, [],
              { st.bd with pos := st.bd.pos + 1 }⟩ src' (space - st.rd_buf.length)
            (acc ++ st.rd_buf)
            (by simp [mhrFuel]; omega) (by simp; omega) hbd hpos1
        refine ⟨st', src'', space'', out, ?_, ?_, hrd', hbd'⟩
        · simp only [mhrLoopF, hspace0, if_false, hdrain, hpb]
          exact hrun
        · rw [heq] at htake
          simp only [htake] at heqr
          simp only [List.append_assoc, List.append_nil, List.nil_append,
            List.singleton_append, List.cons_append] at heqr ⊢
          exact heqr
      · -- NoMatch: the byte goes straight to the output
        have hsp1 : ¬ (space - st.rd_buf.length = 0) := by omega
        obtain ⟨st', src'', space'', out, hrun, heqr, hrd', hbd'⟩ :=
          ih ⟨st.is_in_mail, st.is_unexpected_eof, st.is_finished, [], st.bd⟩ src'
            (space - st.rd_buf.length - 1) (acc ++ st.rd_buf ++ [b])
            (by simp [mhrFuel]; omega) (by simp [hz]; omega) hbd hpos
        refine ⟨st', src'', space'', out, ?_, ?_, hrd', hbd'⟩
        · simp only [mhrLoopF, hspace0, if_false, hdrain, hpb, hsp1]
          exact hrun
        · rw [hz] at heqr ⊢
          simp only [List.take_zero, List.append_assoc, List.append_nil,
            List.nil_append, List.singleton_append, List.cons_append] at heqr ⊢
          exact heqr
      · -- MatchBroke: prefix and breaking byte go to the recovery buffer
        have hlen : (st.bd.boundary.take st.bd.pos).length = st.bd.pos := by
          simp [Nat.le_of_lt hlt]
        obtain ⟨st', src'', space'', out, hrun, heqr, hrd', hbd'⟩ :=
          ih ⟨st.is_in_mail, st.is_unexpected_eof, st.is_finished,
              st.bd.boundary.take st.bd.pos ++ [b], { st.bd with pos := 0 }⟩ src'
            (space - st.rd_buf.length) (acc ++ st.rd_buf)
            (by simp [mhrFuel, hlen]; omega) (by simp [hlen]; omega) hbd (by simp)
        refine ⟨st', src'', space'', out, ?_, ?_, hrd', hbd'⟩
        · simp only [mhrLoopF, hspace0, if_false, hdrain, hpb]
          exact hrun
        · simp only [List.take_zero, List.append_assoc, List.append_nil,
            List.nil_append, List.singleton_append, List.cons_append] at heqr ⊢
          exact heqr

/-- Once a `PartReader` has left `LookingForBoundary`, the loop returns
immediately: nothing is read, nothing is written, the state is unchanged. -/
theorem partLoop_found (fuel : Nat) (st : PartReader) (src : List Nat)
    (space : Nat) (acc : List Nat)
    (h : st.state ≠ PartReaderState.LookingForBoundary) (hf : 1 ≤ fuel) :
    partLoopF fuel st src space acc = some (PartLoopRes.ok st src space acc) := by
  cases fuel with
  | zero => omega
  | succ n =>
    by_cases hs : space = 0
    · simp [partLoopF, hs]
    · rcases hstate : st.state with _ | _ | _
      · exact absurd hstate h
      · simp [partLoopF, hs, hstate]
      · simp [partLoopF, hs, hstate]

/-- A pending `previous_char` behaves exactly like an extra byte prefixed
to the source, as long as the buffer can still absorb the whole replay
queue. -/
theorem partLoop_prev (fuel : Nat) :
    ∀ (st : PartReader) (b : Nat) (src : List Nat) (space : Nat) (acc : List Nat),
      st.state = PartReaderState.LookingForBoundary →
      st.previous_char = some b →
      st.recovery_buffer.length < space →
      partLoopF fuel st src space acc =
        partLoopF fuel { st with previous_char := none } (b :: src) space acc := by
  induction fuel with
  | zero => intro st b src space acc _ _ _; rfl
  | succ n ih =>
    intro st b src space acc hstate hprev hsp
    have hs0 : ¬ (space = 0) := by omega
    cases hrec : st.recovery_buffer with
    | cons r rest =>
      have hlen : rest.length < space - 1 := by
        rw [hrec] at hsp
        simp at hsp
        omega
      simp only [partLoopF, hs0, if_false, hstate, hrec]
      have hrw := ih { st with recovery_buffer := rest } b src (space - 1) (acc ++ [r])
        (by simp [hstate]) (by simp [hprev]) (by simpa using hlen)
      simpa [hstate] using hrw
    | nil =>
      simp only [partLoopF, hs0, if_false, hstate, hrec, hprev]

/-- Conservation invariant of the `PartReader::read` loop: with enough
buffer space, from any reachable looking state with no pending byte the
loop terminates with output plus still-pending delimiter bytes accounting
for every consumed byte exactly once and in order; an EOF error can only
happen with the source exhausted, and a panic only in LF-only newline
mode. -/
theorem partLoop_conserves (nl : Bool) (marker : List Nat) (fuel : Nat) :
    ∀ st src space acc,
      PartInv nl marker st →
      st.previous_char = none →
      partFuelN st src ≤ fuel →
      st.recovery_buffer.length + st.bd.pos + st.middle_bd.pos +
        st.final_bd.pos + src.length < space →
      ∃ r, partLoopF fuel st src space acc = some r ∧
        match r with
        | PartLoopRes.ok st' src' _ out =>
            acc ++ partPendingBytes st ++ src = out ++ partPendingBytes st' ++ src'
        | PartLoopRes.err _ src' => src' = []
        | PartLoopRes.panic => nl = true := by
  induction fuel with
  | zero =>
    intro st src space acc hinv hprev hfuel hspace
    exfalso
    have h1 : 1 ≤ partFuelN st src := by simp [partFuelN]
    omega
  | succ n ih =>
    intro st src space acc hinv hprev hfuel hspace
    obtain ⟨hstate, hb, hm, hf, hbp, hmp, hfp, hpz, hnd, hmsN, hmsM, hmsF⟩ := hinv
    have hs0 : ¬ (space = 0) := by omega
    have hmbl : 1 ≤ st.middle_bd.boundary.length := by rw [hm]; cases nl <;> simp
    have hfbl : 3 ≤ st.final_bd.boundary.length := by rw [hf]; cases nl <;> simp
    have hbbl : 3 ≤ st.bd.boundary.length := by rw [hb]; cases nl <;> simp
    cases hrec : st.recovery_buffer with
    | cons r rest =>
      obtain ⟨hz1, hz2, hz3⟩ := hpz (Or.inr (by rw [hrec]; simp))
      obtain ⟨r', hrun, hres⟩ := ih { st with recovery_buffer := rest } src
          (space - 1) (acc ++ [r])
        ⟨by simpa using hstate, by simpa using hb, by simpa using hm,
          by simpa using hf, by simpa using hbp, by simpa using hmp,
          by simpa using hfp,
          by intro h; exact ⟨by simpa using hz1, by simpa using hz2, by simpa using hz3⟩,
          by intro h; exact ⟨by simpa using hz2, by simpa using hz3⟩,
          by intro h; exact ⟨by simpa using hz2, by simpa using hz3⟩,
          by intro h1 h2
             exfalso
             simp [hz1] at h1
             omega,
          by intro h1 h2
             exfalso
             simp [hz1] at h1
             omega⟩
        (by simpa using hprev)
        (by simp only [partFuelN] at hfuel ⊢
            simp [hrec] at hfuel ⊢
            omega)
        (by rw [hrec] at hspace
            simp at hspace ⊢
            omega)
      refine ⟨r', ?_, ?_⟩
      · simp only [partLoopF, hs0, if_false, hstate, hrec]
        simp only [hstate] at hrun
        exact hrun
      · cases r' with
        | ok st' src' space' out =>
          have hsplit : partPendingBytes st =
              r :: partPendingBytes { st with recovery_buffer := rest } := by
            simp [partPendingBytes, hrec]
          simp only [] at hres ⊢
          rw [hsplit]
          simp only [List.append_assoc, List.cons_append, List.nil_append,
            List.singleton_append] at hres ⊢
          exact hres
        | err st' src' => exact hres
        | panic => exact hres
    | nil =>
      cases src with
      | nil =>
        by_cases hdone : st.bd.pos = st.bd.boundary.length
        · have hdoneB : st.bd.is_done = true := by
            simp [BoundaryDetector.is_done, hdone]
          cases hnl : nl with
          | true =>
            rw [hnl] at hm
            simp only [if_true] at hm
            refine ⟨PartLoopRes.panic, ?_, rfl⟩
            simp [partLoopF, hs0, hstate, hrec, hprev, partEofState, hdoneB, hm]
          | false =>
            rw [hnl] at hm hf
            simp at hm hf
            by_cases hmid2 : st.middle_bd.pos = 0
            · refine ⟨PartLoopRes.ok
                  { st with state := PartReaderState.FoundFinalBoundary }
                  [] space acc, ?_, ?_⟩
              · simp [partLoopF, hs0, hstate, hrec, hprev, partEofState,
                  hdoneB, hm, hf, hmid2]
              · simp [partPendingBytes]
            · have hms : st.match_state = FinalBoundaryStateMatch.Middle := by
                cases hms' : st.match_state with
                | None =>
                  rcases hmsN hms' with ⟨h0, _⟩
                  exact absurd h0 hmid2
                | Final =>
                  rcases hmsF hdone hms' with ⟨_, _, h0⟩
                  exact absurd h0 hmid2
                | Middle => rfl
              have hmne2 : ¬ (st.middle_bd.pos = 2) := by
                rcases hmsM hdone hms with ⟨_, hlt, _⟩
                rw [hm] at hlt
                simp at hlt
                omega
              refine ⟨PartLoopRes.err st [], ?_, rfl⟩
              simp [partLoopF, hs0, hstate, hrec, hprev, partEofState,
                hdoneB, hm, hf, hmid2, hmne2]
        · have hdoneB : ¬ (st.bd.is_done = true) := by
            simp [BoundaryDetector.is_done]
            omega
          refine ⟨PartLoopRes.err st [], ?_, rfl⟩
          simp [partLoopF, hs0, hstate, hrec, hprev, partEofState, hdoneB]
      | cons b src' =>
        have hstEq : { st with previous_char := none } = st := by
          cases st
          simp at hprev
          simp [hprev]
        by_cases hdone : st.bd.pos = st.bd.boundary.length
        · -- common detector fully matched: disambiguating the suffix
          have hdoneB : st.bd.is_done = true := by
            simp [BoundaryDetector.is_done, hdone]
          cases hms : st.match_state with
          | None =>
            obtain ⟨hmz, hfz⟩ := hmsN hms
            have hmlt : st.middle_bd.pos < st.middle_bd.boundary.length := by omega
            have hflt : st.final_bd.pos < st.final_bd.boundary.length := by omega
            have htkm := take_succ_getD st.middle_bd.boundary st.middle_bd.pos hmlt
            have htkf := take_succ_getD st.final_bd.boundary st.final_bd.pos hflt
            rcases pass_byte_cases st.middle_bd b hmlt with
              ⟨heqm, hdm, hpbm⟩ | ⟨heqm, hdm, hpbm⟩ | ⟨heqm, hdm, hpbm⟩ | ⟨heqm, hdm, hpbm⟩
            · -- middle MatchDone: only possible with an LF-only middle suffix
              have hnl : nl = true := by
                cases hnl' : nl
                · rw [hnl'] at hm
                  simp at hm
                  rw [hm, hmz] at hdm
                  simp at hdm
                · rfl
              rcases pass_byte_cases st.final_bd b hflt with
                ⟨heqf, hdf, hpbf⟩ | ⟨heqf, hdf, hpbf⟩ | ⟨heqf, hdf, hpbf⟩ | ⟨heqf, hdf, hpbf⟩
              · exfalso; rw [hfz] at hdf; omega
              · -- (MatchDone, MatchBegin): the two suffix heads differ
                exfalso
                rw [hmz, hm, hnl] at heqm
                rw [hfz, hf, hnl] at heqf
                simp [LF, CR] at heqm heqf
                omega
              · -- (MatchDone, NoMatch): the wildcard arm panics
                refine ⟨PartLoopRes.panic, ?_, hnl⟩
                simp [partLoopF, hs0, hstate, hrec, hprev, hstEq, hdoneB, hms,
                  hpbm, hpbf]
              · exfalso; exact hdf hfz
            · -- middle MatchBegin
              rcases pass_byte_cases st.final_bd b hflt with
                ⟨heqf, hdf, hpbf⟩ | ⟨heqf, hdf, hpbf⟩ | ⟨heqf, hdf, hpbf⟩ | ⟨heqf, hdf, hpbf⟩
              · exfalso; rw [hfz] at hdf; omega
              · -- (MatchBegin, MatchBegin): impossible, heads differ
                exfalso
                rw [hmz, hm] at heqm
                rw [hfz, hf] at heqf
                cases hnl' : nl <;>
                  (rw [hnl'] at heqm heqf; simp [LF, CR] at heqm heqf; omega)
              · -- (MatchBegin, NoMatch): lock onto the middle suffix
                have hmblen2 : 1 < st.middle_bd.boundary.length := by
                  rw [hmz] at hdm
                  omega
                obtain ⟨r', hrun, hres⟩ := ih
                  { st with
                      middle_bd := { st.middle_bd with pos := st.middle_bd.pos + 1 }
                      match_state := FinalBoundaryStateMatch.Middle } src' space acc
                  ⟨by simpa using hstate, by simpa using hb, by simpa using hm,
                    by simpa using hf, by simpa using hbp, by simp; omega,
                    by simpa using hfp,
                    fun h => absurd h (by simp [hprev, hrec]),
                    fun h => absurd (by simpa using h) (by omega),
                    fun h => absurd h (by simp),
                    fun _ _ => ⟨by simp, by simp [hmz]; omega, by simpa using hfz⟩,
                    fun _ h => absurd h (by simp)⟩
                  (by simpa using hprev)
                  (by simp [partFuelN, hrec, hmz, hfz]
                      simp [partFuelN, hrec, hmz, hfz] at hfuel
                      omega)
                  (by simp [hrec, hmz, hfz]
                      simp [hrec, hmz, hfz] at hspace
                      omega)
                have hstep : partLoopF (n + 1) st (b :: src') space acc =
                    partLoopF n
                      { st with
                          middle_bd := { st.middle_bd with pos := st.middle_bd.pos + 1 }
                          match_state := FinalBoundaryStateMatch.Middle }
                      src' space acc := by
                  simp [partLoopF, hs0, hstate, hrec, hprev, hstEq, hdoneB, hms,
                    hpbm, hpbf]
                refine ⟨r', hstep.trans hrun, ?_⟩
                cases r' with
                | ok st2 src2 sp2 out2 =>
                  have hpend : partPendingBytes st = st.bd.boundary := by
                    simp [partPendingBytes, hrec, hprev, hms, hmz, hfz, hdoneB]
                  have hpendT : partPendingBytes
                      { st with
                          middle_bd := { st.middle_bd with pos := st.middle_bd.pos + 1 }
                          match_state := FinalBoundaryStateMatch.Middle } =
                      st.bd.boundary ++
                        st.middle_bd.boundary.take (st.middle_bd.pos + 1) := by
                    simp [partPendingBytes, hrec, hprev, hfz, hdoneB]
                  rw [hpendT, htkm, heqm, hmz] at hres
                  rw [hpend]
                  simp only [List.take_zero, List.append_assoc, List.cons_append,
                    List.nil_append, List.singleton_append, List.append_nil] at hres ⊢
                  exact hres
                | err st2 src2 => exact hres
                | panic => exact hres
              · exfalso; exact hdf hfz
            · -- middle NoMatch
              rcases pass_byte_cases st.final_bd b hflt with
                ⟨heqf, hdf, hpbf⟩ | ⟨heqf, hdf, hpbf⟩ | ⟨heqf, hdf, hpbf⟩ | ⟨heqf, hdf, hpbf⟩
              · exfalso; rw [hfz] at hdf; omega
              · -- (NoMatch, MatchBegin): lock onto the final suffix
                have hfblen2 : 1 < st.final_bd.boundary.length := by omega
                obtain ⟨r', hrun, hres⟩ := ih
                  { st with
                      final_bd := { st.final_bd with pos := st.final_bd.pos + 1 }
                      match_state := FinalBoundaryStateMatch.Final } src' space acc
                  ⟨by simpa using hstate, by simpa using hb, by simpa using hm,
                    by simpa using hf, by simpa using hbp, by simpa using hmp,
                    by simp; omega,
                    fun h => absurd h (by simp [hprev, hrec]),
                    fun h => absurd (by simpa using h) (by omega),
                    fun h => absurd h (by simp),
                    fun _ h => absurd h (by simp),
                    fun _ _ => ⟨by simp [hfz], by simp [hfz]; omega, by simpa using hmz⟩⟩
                  (by simpa using hprev)
                  (by simp [partFuelN, hrec, hmz, hfz]
                      simp [partFuelN, hrec, hmz, hfz] at hfuel
                      omega)
                  (by simp [hrec, hmz, hfz]
                      simp [hrec, hmz, hfz] at hspace
                      omega)
                have hstep : partLoopF (n + 1) st (b :: src') space acc =
                    partLoopF n
                      { st with
                          final_bd := { st.final_bd with pos := st.final_bd.pos + 1 }
                          match_state := FinalBoundaryStateMatch.Final }
                      src' space acc := by
                  simp [partLoopF, hs0, hstate, hrec, hprev, hstEq, hdoneB, hms,
                    hpbm, hpbf]
                refine ⟨r', hstep.trans hrun, ?_⟩
                cases r' with
                | ok st2 src2 sp2 out2 =>
                  have hpend : partPendingBytes st = st.bd.boundary := by
                    simp [partPendingBytes, hrec, hprev, hms, hmz, hfz, hdoneB]
                  have hpendT : partPendingBytes
                      { st with
                          final_bd := { st.final_bd with pos := st.final_bd.pos + 1 }
                          match_state := FinalBoundaryStateMatch.Final } =
                      st.bd.boundary ++
                        st.final_bd.boundary.take (st.final_bd.pos + 1) := by
                    simp [partPendingBytes, hrec, hprev, hmz, hdoneB]
                  rw [hpendT, htkf, heqf, hfz] at hres
                  rw [hpend]
                  simp only [List.take_zero, List.append_assoc, List.cons_append,
                    List.nil_append, List.singleton_append, List.append_nil] at hres ⊢
                  exact hres
                | err st2 src2 => exact hres
                | panic => exact hres
              · -- (NoMatch, NoMatch): replay the whole common boundary
                have hprevst : partLoopF n
                    { st with
                        bd := st.bd.reset
                        previous_char := some b
                        recovery_buffer := st.recovery_buffer ++ st.bd.boundary } src' space acc =
                    partLoopF n
                      { st with
                          bd := st.bd.reset
                          previous_char := none
                          recovery_buffer := st.recovery_buffer ++ st.bd.boundary } (b :: src') space acc := by
                  refine partLoop_prev n _ b src' space acc (by simpa using hstate) rfl ?_
                  simp [hrec]
                  simp [hrec, hmz, hfz] at hspace
                  omega
                obtain ⟨r', hrun, hres⟩ := ih
                  { st with
                      bd := st.bd.reset
                      previous_char := none
                      recovery_buffer := st.recovery_buffer ++ st.bd.boundary } (b :: src') space acc
                  ⟨by simpa using hstate, by simpa using hb, by simpa using hm,
                    by simpa using hf, by simp [BoundaryDetector.reset],
                    by simpa using hmp, by simpa using hfp,
                    fun _ => ⟨by simp [BoundaryDetector.reset], by simpa using hmz,
                      by simpa using hfz⟩,
                    fun _ => ⟨by simpa using hmz, by simpa using hfz⟩,
                    fun _ => ⟨by simpa using hmz, by simpa using hfz⟩,
                    fun h _ => absurd (by simpa [BoundaryDetector.reset] using h) (by omega),
                    fun h _ => absurd (by simpa [BoundaryDetector.reset] using h) (by omega)⟩
                  rfl
                  (by simp [partFuelN, hrec, hmz, hfz, BoundaryDetector.reset]
                      simp [partFuelN, hrec, hmz, hfz] at hfuel
                      omega)
                  (by simp [hrec, hmz, hfz, BoundaryDetector.reset]
                      simp [hrec, hmz, hfz] at hspace
                      omega)
                have hstep : partLoopF (n + 1) st (b :: src') space acc =
                    partLoopF n
                      { st with
                          bd := st.bd.reset
                          previous_char := some b
                          recovery_buffer := st.recovery_buffer ++ st.bd.boundary }
                      src' space acc := by
                  simp [partLoopF, hs0, hstate, hrec, hprev, hstEq, hdoneB, hms,
                    hpbm, hpbf]
                refine ⟨r', (hstep.trans hprevst).trans hrun, ?_⟩
                cases r' with
                | ok st2 src2 sp2 out2 =>
                  have hpend : partPendingBytes st = st.bd.boundary := by
                    simp [partPendingBytes, hrec, hprev, hms, hmz, hfz, hdoneB]
                  have hpendT : partPendingBytes
                      { st with
                          bd := st.bd.reset
                          previous_char := none
                          recovery_buffer := st.recovery_buffer ++ st.bd.boundary } =
                      st.bd.boundary := by
                    have hz : ¬ ((0 : Nat) = st.bd.boundary.length) := by omega
                    simp [partPendingBytes, hrec, hmz, hfz, BoundaryDetector.reset,
                      BoundaryDetector.is_done, hz]
                  rw [hpendT] at hres
                  rw [hpend]
                  simp only [List.append_assoc, List.cons_append, List.nil_append,
                    List.singleton_append, List.append_nil] at hres ⊢
                  exact hres
                | err st2 src2 => exact hres
                | panic => exact hres
              · exfalso; exact hdf hfz
            · -- middle MatchBroke: impossible while disambiguating
              exfalso
              exact hdm hmz
          | Middle =>
            obtain ⟨h1m, hmlt, hfzM⟩ := hmsM hdone hms
            have htkm := take_succ_getD st.middle_bd.boundary st.middle_bd.pos hmlt
            rcases pass_byte_cases st.middle_bd b hmlt with
              ⟨heqm, hdm, hpbm⟩ | ⟨heqm, hdm, hpbm⟩ | ⟨heqm, hdm, hpbm⟩ | ⟨heqm, hdm, hpbm⟩
            · -- middle MatchDone: the middle boundary is found
              have hn1 : 1 ≤ n := by
                simp [partFuelN, hrec] at hfuel
                omega
              have hfound := partLoop_found n
                { st with
                    middle_bd := { st.middle_bd with pos := st.middle_bd.pos + 1 }
                    state := PartReaderState.FoundMiddleBoundary } src' space acc
                (by simp) hn1
              have hstep : partLoopF (n + 1) st (b :: src') space acc =
                  partLoopF n
                    { st with
                        middle_bd := { st.middle_bd with pos := st.middle_bd.pos + 1 }
                        state := PartReaderState.FoundMiddleBoundary }
                    src' space acc := by
                simp [partLoopF, hs0, hstate, hrec, hprev, hstEq, hdoneB, hms, hpbm]
              refine ⟨_, hstep.trans hfound, ?_⟩
              have hpend : partPendingBytes st =
                  st.bd.boundary ++ st.middle_bd.boundary.take st.middle_bd.pos := by
                simp [partPendingBytes, hrec, hprev, hms, hfzM, hdoneB]
              have hpendT : partPendingBytes
                  { st with
                      middle_bd := { st.middle_bd with pos := st.middle_bd.pos + 1 }
                      state := PartReaderState.FoundMiddleBoundary } =
                  st.bd.boundary ++
                    st.middle_bd.boundary.take (st.middle_bd.pos + 1) := by
                simp [partPendingBytes, hrec, hprev, hms, hfzM, hdoneB]
              show acc ++ partPendingBytes st ++ b :: src' =
                acc ++ partPendingBytes
                  { st with
                      middle_bd := { st.middle_bd with pos := st.middle_bd.pos + 1 }
                      state := PartReaderState.FoundMiddleBoundary } ++ src'
              rw [hpend, hpendT, htkm, heqm]
              simp
            · -- middle MatchBegin: still inside the middle suffix
              obtain ⟨r', hrun, hres⟩ := ih
                { st with
                    middle_bd := { st.middle_bd with pos := st.middle_bd.pos + 1 } }
                  src' space acc
                ⟨by simpa using hstate, by simpa using hb, by simpa using hm,
                  by simpa using hf, by simpa using hbp, by simp; omega,
                  by simpa using hfp,
                  fun h => absurd h (by simp [hprev, hrec]),
                  fun h => absurd (by simpa using h) (by omega),
                  fun h => absurd (by simpa using h) (by rw [hms]; simp),
                  fun _ _ => ⟨by simp, by simp; omega, by simpa using hfzM⟩,
                  fun _ h => absurd (by simpa using h) (by rw [hms]; simp)⟩
                (by simpa using hprev)
                (by simp [partFuelN, hrec, hfzM]
                    simp [partFuelN, hrec, hfzM] at hfuel
                    omega)
                (by simp [hrec, hfzM]
                    simp [hrec, hfzM] at hspace
                    omega)
              have hstep : partLoopF (n + 1) st (b :: src') space acc =
                  partLoopF n
                    { st with
                        middle_bd := { st.middle_bd with pos := st.middle_bd.pos + 1 } }
                    src' space acc := by
                simp [partLoopF, hs0, hstate, hrec, hprev, hstEq, hdoneB, hms, hpbm]
              refine ⟨r', hstep.trans hrun, ?_⟩
              cases r' with
              | ok st2 src2 sp2 out2 =>
                have hpend : partPendingBytes st =
                    st.bd.boundary ++ st.middle_bd.boundary.take st.middle_bd.pos := by
                  simp [partPendingBytes, hrec, hprev, hms, hfzM, hdoneB]
                have hpendT : partPendingBytes
                    { st with
                        middle_bd := { st.middle_bd with pos := st.middle_bd.pos + 1 } } =
                    st.bd.boundary ++
                      st.middle_bd.boundary.take (st.middle_bd.pos + 1) := by
                  simp [partPendingBytes, hrec, hprev, hms, hfzM, hdoneB]
                rw [hpendT, htkm, heqm] at hres
                rw [hpend]
                simp only [List.append_assoc, List.cons_append, List.nil_append,
                  List.singleton_append, List.append_nil] at hres ⊢
                exact hres
              | err st2 src2 => exact hres
              | panic => exact hres
            · -- middle NoMatch: impossible, the cursor is in motion
              exfalso; omega
            · -- middle MatchBroke: replay common boundary and partial suffix
              have hprevst : partLoopF n
                  { st with
                      middle_bd := { st.middle_bd with pos := 0 }
                      bd := st.bd.reset
                      previous_char := some b
                      recovery_buffer := st.recovery_buffer ++ st.bd.boundary ++
                        st.middle_bd.boundary.take st.middle_bd.pos } src' space acc =
                  partLoopF n
                    { st with
                        middle_bd := { st.middle_bd with pos := 0 }
                        bd := st.bd.reset
                        previous_char := none
                        recovery_buffer := st.recovery_buffer ++ st.bd.boundary ++
                          st.middle_bd.boundary.take st.middle_bd.pos } (b :: src') space acc := by
                refine partLoop_prev n _ b src' space acc (by simpa using hstate) rfl ?_
                have hlen : (st.middle_bd.boundary.take st.middle_bd.pos).length =
                    st.middle_bd.pos := by simp; omega
                simp [hrec, hlen]
                simp [hrec, hfzM] at hspace
                omega
              obtain ⟨r', hrun, hres⟩ := ih
                { st with
                    middle_bd := { st.middle_bd with pos := 0 }
                    bd := st.bd.reset
                    previous_char := none
                    recovery_buffer := st.recovery_buffer ++ st.bd.boundary ++
                      st.middle_bd.boundary.take st.middle_bd.pos } (b :: src') space acc
                ⟨by simpa using hstate, by simpa using hb, by simpa using hm,
                  by simpa using hf, by simp [BoundaryDetector.reset],
                  by simp, by simpa using hfp,
                  fun _ => ⟨by simp [BoundaryDetector.reset], by simp,
                    by simpa using hfzM⟩,
                  fun _ => ⟨by simp, by simpa using hfzM⟩,
                  fun h => absurd (by simpa using h) (by rw [hms]; simp),
                  fun h _ => absurd (by simpa [BoundaryDetector.reset] using h) (by omega),
                  fun h _ => absurd (by simpa [BoundaryDetector.reset] using h) (by omega)⟩
                rfl
                (by have hlen : (st.middle_bd.boundary.take st.middle_bd.pos).length =
                      st.middle_bd.pos := by simp; omega
                    simp [partFuelN, hrec, hfzM, hlen, BoundaryDetector.reset]
                    simp [partFuelN, hrec, hfzM] at hfuel
                    omega)
                (by have hlen : (st.middle_bd.boundary.take st.middle_bd.pos).length =
                      st.middle_bd.pos := by simp; omega
                    simp [hrec, hfzM, hlen, BoundaryDetector.reset]
                    simp [hrec, hfzM] at hspace
                    omega)
              have hstep : partLoopF (n + 1) st (b :: src') space acc =
                  partLoopF n
                    { st with
                        middle_bd := { st.middle_bd with pos := 0 }
                        bd := st.bd.reset
                        previous_char := some b
                        recovery_buffer := st.recovery_buffer ++ st.bd.boundary ++
                          st.middle_bd.boundary.take st.middle_bd.pos }
                    src' space acc := by
                simp [partLoopF, hs0, hstate, hrec, hprev, hstEq, hdoneB, hms, hpbm]
              refine ⟨r', (hstep.trans hprevst).trans hrun, ?_⟩
              cases r' with
              | ok st2 src2 sp2 out2 =>
                have hpend : partPendingBytes st =
                    st.bd.boundary ++ st.middle_bd.boundary.take st.middle_bd.pos := by
                  simp [partPendingBytes, hrec, hprev, hms, hfzM, hdoneB]
                have hpendT : partPendingBytes
                    { st with
                        middle_bd := { st.middle_bd with pos := 0 }
                        bd := st.bd.reset
                        previous_char := none
                        recovery_buffer := st.recovery_buffer ++ st.bd.boundary ++
                          st.middle_bd.boundary.take st.middle_bd.pos } =
                    st.bd.boundary ++ st.middle_bd.boundary.take st.middle_bd.pos := by
                  have hz : ¬ ((0 : Nat) = st.bd.boundary.length) := by omega
                  simp [partPendingBytes, hrec, hfzM, BoundaryDetector.reset,
                    BoundaryDetector.is_done, hz]
                rw [hpendT] at hres
                rw [hpend]
                simp only [List.append_assoc, List.cons_append, List.nil_append,
                  List.singleton_append, List.append_nil] at hres ⊢
                exact hres
              | err st2 src2 => exact hres
              | panic => exact hres
          | Final =>
            obtain ⟨h1f, hflt, hmzF⟩ := hmsF hdone hms
            have htkf := take_succ_getD st.final_bd.boundary st.final_bd.pos hflt
            rcases pass_byte_cases st.final_bd b hflt with
              ⟨heqf, hdf, hpbf⟩ | ⟨heqf, hdf, hpbf⟩ | ⟨heqf, hdf, hpbf⟩ | ⟨heqf, hdf, hpbf⟩
            · -- final MatchDone: the final boundary is found
              have hn1 : 1 ≤ n := by
                simp [partFuelN, hrec] at hfuel
                omega
              have hfound := partLoop_found n
                { st with
                    final_bd := { st.final_bd with pos := st.final_bd.pos + 1 }
                    state := PartReaderState.FoundFinalBoundary } src' space acc
                (by simp) hn1
              have hstep : partLoopF (n + 1) st (b :: src') space acc =
                  partLoopF n
                    { st with
                        final_bd := { st.final_bd with pos := st.final_bd.pos + 1 }
                        state := PartReaderState.FoundFinalBoundary }
                    src' space acc := by
                simp [partLoopF, hs0, hstate, hrec, hprev, hstEq, hdoneB, hms, hpbf]
              refine ⟨_, hstep.trans hfound, ?_⟩
              have hpend : partPendingBytes st =
                  st.bd.boundary ++ st.final_bd.boundary.take st.final_bd.pos := by
                simp [partPendingBytes, hrec, hprev, hms, hmzF, hdoneB]
              have hpendT : partPendingBytes
                  { st with
                      final_bd := { st.final_bd with pos := st.final_bd.pos + 1 }
                      state := PartReaderState.FoundFinalBoundary } =
                  st.bd.boundary ++
                    st.final_bd.boundary.take (st.final_bd.pos + 1) := by
                simp [partPendingBytes, hrec, hprev, hms, hmzF, hdoneB]
              show acc ++ partPendingBytes st ++ b :: src' =
                acc ++ partPendingBytes
                  { st with
                      final_bd := { st.final_bd with pos := st.final_bd.pos + 1 }
                      state := PartReaderState.FoundFinalBoundary } ++ src'
              rw [hpend, hpendT, htkf, heqf]
              simp
            · -- final MatchBegin: still inside the final suffix
              obtain ⟨r', hrun, hres⟩ := ih
                { st with
                    final_bd := { st.final_bd with pos := st.final_bd.pos + 1 } }
                  src' space acc
                ⟨by simpa using hstate, by simpa using hb, by simpa using hm,
                  by simpa using hf, by simpa using hbp, by simpa using hmp,
                  by simp; omega,
                  fun h => absurd h (by simp [hprev, hrec]),
                  fun h => absurd (by simpa using h) (by omega),
                  fun h => absurd (by simpa using h) (by rw [hms]; simp),
                  fun _ h => absurd (by simpa using h) (by rw [hms]; simp),
                  fun _ _ => ⟨by simp, by simp; omega, by simpa using hmzF⟩⟩
                (by simpa using hprev)
                (by simp [partFuelN, hrec, hmzF]
                    simp [partFuelN, hrec, hmzF] at hfuel
                    omega)
                (by simp [hrec, hmzF]
                    simp [hrec, hmzF] at hspace
                    omega)
              have hstep : partLoopF (n + 1) st (b :: src') space acc =
                  partLoopF n
                    { st with
                        final_bd := { st.final_bd with pos := st.final_bd.pos + 1 } }
                    src' space acc := by
                simp [partLoopF, hs0, hstate, hrec, hprev, hstEq, hdoneB, hms, hpbf]
              refine ⟨r', hstep.trans hrun, ?_⟩
              cases r' with
              | ok st2 src2 sp2 out2 =>
                have hpend : partPendingBytes st =
                    st.bd.boundary ++ st.final_bd.boundary.take st.final_bd.pos := by
                  simp [partPendingBytes, hrec, hprev, hms, hmzF, hdoneB]
                have hpendT : partPendingBytes
                    { st with
                        final_bd := { st.final_bd with pos := st.final_bd.pos + 1 } } =
                    st.bd.boundary ++
                      st.final_bd.boundary.take (st.final_bd.pos + 1) := by
                  simp [partPendingBytes, hrec, hprev, hms, hmzF, hdoneB]
                rw [hpendT, htkf, heqf] at hres
                rw [hpend]
                simp only [List.append_assoc, List.cons_append, List.nil_append,
                  List.singleton_append, List.append_nil] at hres ⊢
                exact hres
              | err st2 src2 => exact hres
              | panic => exact hres
            · -- final NoMatch: impossible, the cursor is in motion
              exfalso; omega
            · -- final MatchBroke: replay common boundary and partial suffix
              have hprevst : partLoopF n
                  { st with
                      final_bd := { st.final_bd with pos := 0 }
                      bd := st.bd.reset
                      previous_char := some b
                      recovery_buffer := st.recovery_buffer ++ st.bd.boundary ++
                        st.final_bd.boundary.take st.final_bd.pos } src' space acc =
                  partLoopF n
                    { st with
                        final_bd := { st.final_bd with pos := 0 }
                        bd := st.bd.reset
                        previous_char := none
                        recovery_buffer := st.recovery_buffer ++ st.bd.boundary ++
                          st.final_bd.boundary.take st.final_bd.pos } (b :: src') space acc := by
                refine partLoop_prev n _ b src' space acc (by simpa using hstate) rfl ?_
                have hlen : (st.final_bd.boundary.take st.final_bd.pos).length =
                    st.final_bd.pos := by simp; omega
                simp [hrec, hlen]
                simp [hrec, hmzF] at hspace
                omega
              obtain ⟨r', hrun, hres⟩ := ih
                { st with
                    final_bd := { st.final_bd with pos := 0 }
                    bd := st.bd.reset
                    previous_char := none
                    recovery_buffer := st.recovery_buffer ++ st.bd.boundary ++
                      st.final_bd.boundary.take st.final_bd.pos } (b :: src') space acc
                ⟨by simpa using hstate, by simpa using hb, by simpa using hm,
                  by simpa using hf, by simp [BoundaryDetector.reset],
                  by simpa using hmp, by simp,
                  fun _ => ⟨by simp [BoundaryDetector.reset], by simpa using hmzF,
                    by simp⟩,
                  fun _ => ⟨by simpa using hmzF, by simp⟩,
                  fun h => absurd (by simpa using h) (by rw [hms]; simp),
                  fun h _ => absurd (by simpa [BoundaryDetector.reset] using h) (by omega),
                  fun h _ => absurd (by simpa [BoundaryDetector.reset] using h) (by omega)⟩
                rfl
                (by have hlen : (st.final_bd.boundary.take st.final_bd.pos).length =
                      st.final_bd.pos := by simp; omega
                    simp [partFuelN, hrec, hmzF, hlen, BoundaryDetector.reset]
                    simp [partFuelN, hrec, hmzF] at hfuel
                    omega)
                (by have hlen : (st.final_bd.boundary.take st.final_bd.pos).length =
                      st.final_bd.pos := by simp; omega
                    simp [hrec, hmzF, hlen, BoundaryDetector.reset]
                    simp [hrec, hmzF] at hspace
                    omega)
              have hstep : partLoopF (n + 1) st (b :: src') space acc =
                  partLoopF n
                    { st with
                        final_bd := { st.final_bd with pos := 0 }
                        bd := st.bd.reset
                        previous_char := some b
                        recovery_buffer := st.recovery_buffer ++ st.bd.boundary ++
                          st.final_bd.boundary.take st.final_bd.pos }
                    src' space acc := by
                simp [partLoopF, hs0, hstate, hrec, hprev, hstEq, hdoneB, hms, hpbf]
              refine ⟨r', (hstep.trans hprevst).trans hrun, ?_⟩
              cases r' with
              | ok st2 src2 sp2 out2 =>
                have hpend : partPendingBytes st =
                    st.bd.boundary ++ st.final_bd.boundary.take st.final_bd.pos := by
                  simp [partPendingBytes, hrec, hprev, hms, hmzF, hdoneB]
                have hpendT : partPendingBytes
                    { st with
                        final_bd := { st.final_bd with pos := 0 }
                        bd := st.bd.reset
                        previous_char := none
                        recovery_buffer := st.recovery_buffer ++ st.bd.boundary ++
                          st.final_bd.boundary.take st.final_bd.pos } =
                    st.bd.boundary ++ st.final_bd.boundary.take st.final_bd.pos := by
                  have hz : ¬ ((0 : Nat) = st.bd.boundary.length) := by omega
                  simp [partPendingBytes, hrec, hmzF, BoundaryDetector.reset,
                    BoundaryDetector.is_done, hz]
                rw [hpendT] at hres
                rw [hpend]
                simp only [List.append_assoc, List.cons_append, List.nil_append,
                  List.singleton_append, List.append_nil] at hres ⊢
                exact hres
              | err st2 src2 => exact hres
              | panic => exact hres
        · -- common detector not yet done
          have hdlt : st.bd.pos < st.bd.boundary.length := by omega
          have hdoneB : st.bd.is_done = false := by
            simp [BoundaryDetector.is_done]
            omega
          obtain ⟨hmz, hfz⟩ := hnd hdlt
          simp only [partFuelN, hrec, hmz, hfz] at hfuel
          simp only [hrec, hmz, hfz] at hspace
          simp only [List.length_cons, List.length_nil] at hfuel hspace
          rcases pass_byte_cases st.bd b hdlt with
            ⟨heq, hd1, hpb⟩ | ⟨heq, hd1, hpb⟩ | ⟨heq, hd1, hpb⟩ | ⟨heq, hd1, hpb⟩
          · -- MatchDone on the common detector
            obtain ⟨r', hrun, hres⟩ := ih
              { st with
                  bd := { st.bd with pos := st.bd.pos + 1 }
                  match_state := FinalBoundaryStateMatch.None } src' space acc
              ⟨by simpa using hstate, by simpa using hb, by simpa using hm,
                by simpa using hf, by simp; omega, by simpa using hmp,
                by simpa using hfp,
                fun h => absurd h (by simp [hprev, hrec]),
                fun h => absurd (by simpa using h) (by omega),
                fun _ => ⟨by simpa using hmz, by simpa using hfz⟩,
                fun _ h => absurd h (by simp),
                fun _ h => absurd h (by simp)⟩
              (by simpa using hprev)
              (by simp [partFuelN, hrec, hmz, hfz]; omega)
              (by simp [hrec, hmz, hfz]; omega)
            have hstep : partLoopF (n + 1) st (b :: src') space acc =
                partLoopF n
                  { st with
                      bd := { st.bd with pos := st.bd.pos + 1 }
                      match_state := FinalBoundaryStateMatch.None } src' space acc := by
              simp [partLoopF, hs0, hstate, hrec, hprev, hstEq, hdoneB, hpb]
            refine ⟨r', hstep.trans hrun, ?_⟩
            cases r' with
            | ok st2 src2 sp2 out2 =>
              have hpend : partPendingBytes st = st.bd.boundary.take st.bd.pos := by
                simp [partPendingBytes, hrec, hprev, hmz, hfz, hdoneB]
              have hpendT : partPendingBytes
                  { st with
                      bd := { st.bd with pos := st.bd.pos + 1 }
                      match_state := FinalBoundaryStateMatch.None } =
                  st.bd.boundary := by
                simp [partPendingBytes, hrec, hprev, hmz, hfz,
                  BoundaryDetector.is_done, hd1]
              rw [hpendT] at hres
              rw [hpend]
              have hbtake : st.bd.boundary = st.bd.boundary.take (st.bd.pos + 1) := by
                rw [hd1]
                simp
              rw [hbtake, take_succ_getD _ _ hdlt, heq] at hres
              simp only [List.append_assoc, List.cons_append, List.nil_append,
                List.singleton_append] at hres ⊢
              exact hres
            | err st2 src2 => exact hres
            | panic => exact hres
          · -- MatchBegin on the common detector
            obtain ⟨r', hrun, hres⟩ := ih
              { st with bd := { st.bd with pos := st.bd.pos + 1 } } src' space acc
              ⟨by simpa using hstate, by simpa using hb, by simpa using hm,
                by simpa using hf, by simp; omega, by simpa using hmp,
                by simpa using hfp,
                fun h => absurd h (by simp [hprev, hrec]),
                fun _ => ⟨by simpa using hmz, by simpa using hfz⟩,
                fun _ => ⟨by simpa using hmz, by simpa using hfz⟩,
                fun h _ => absurd (by simpa using h) (by omega),
                fun h _ => absurd (by simpa using h) (by omega)⟩
              (by simpa using hprev)
              (by simp [partFuelN, hrec, hmz, hfz]; omega)
              (by simp [hrec, hmz, hfz]; omega)
            have hstep : partLoopF (n + 1) st (b :: src') space acc =
                partLoopF n
                  { st with bd := { st.bd with pos := st.bd.pos + 1 } }
                  src' space acc := by
              simp [partLoopF, hs0, hstate, hrec, hprev, hstEq, hdoneB, hpb]
            refine ⟨r', hstep.trans hrun, ?_⟩
            cases r' with
            | ok st2 src2 sp2 out2 =>
              have hpend : partPendingBytes st = st.bd.boundary.take st.bd.pos := by
                simp [partPendingBytes, hrec, hprev, hmz, hfz, hdoneB]
              have hdoneB1 : (({ st.bd with pos := st.bd.pos + 1 } :
                  BoundaryDetector).is_done) = false := by
                simp [BoundaryDetector.is_done]
                omega
              have hpendT : partPendingBytes
                  { st with bd := { st.bd with pos := st.bd.pos + 1 } } =
                  st.bd.boundary.take (st.bd.pos + 1) := by
                simp [partPendingBytes, hrec, hprev, hmz, hfz, hdoneB1]
              rw [hpendT] at hres
              rw [hpend]
              rw [take_succ_getD _ _ hdlt, heq] at hres
              simp only [List.append_assoc, List.cons_append, List.nil_append,
                List.singleton_append] at hres ⊢
              exact hres
            | err st2 src2 => exact hres
            | panic => exact hres
          · -- NoMatch on the common detector: literal byte
            obtain ⟨r', hrun, hres⟩ := ih st src' (space - 1) (acc ++ [b])
              ⟨hstate, hb, hm, hf, hbp, hmp, hfp, hpz, hnd, hmsN, hmsM, hmsF⟩
              hprev
              (by simp [partFuelN, hrec, hmz, hfz]; omega)
              (by simp [hrec, hmz, hfz]; omega)
            have hstLit : (⟨st.bd, st.final_bd, st.middle_bd, none,
                PartReaderState.LookingForBoundary, st.match_state, []⟩ : PartReader) = st := by
              cases st
              simp_all
            have hstep : partLoopF (n + 1) st (b :: src') space acc =
                partLoopF n st src' (space - 1) (acc ++ [b]) := by
              simp [partLoopF, hs0, hstate, hrec, hprev, hstEq, hdoneB, hpb]
              rw [hstLit]
            refine ⟨r', hstep.trans hrun, ?_⟩
            cases r' with
            | ok st2 src2 sp2 out2 =>
              have hpend : partPendingBytes st = [] := by
                simp [partPendingBytes, hrec, hprev, hd1, hmz, hfz, hdoneB]
              rw [hpend] at hres ⊢
              simp only [List.append_assoc, List.cons_append, List.nil_append,
                List.singleton_append, List.append_nil] at hres ⊢
              exact hres
            | err st2 src2 => exact hres
            | panic => exact hres
          · -- MatchBroke on the common detector: replay and requeue b
            have hd1' : 1 ≤ st.bd.pos := by omega
            have hprevst : partLoopF n
                { st with
                    bd := { st.bd with pos := 0 }
                    recovery_buffer := st.recovery_buffer ++ st.bd.boundary.take st.bd.pos
                    previous_char := some b } src' space acc =
                partLoopF n
                  { st with
                      bd := { st.bd with pos := 0 }
                      recovery_buffer := st.recovery_buffer ++ st.bd.boundary.take st.bd.pos
                      previous_char := none } (b :: src') space acc := by
              refine partLoop_prev n _ b src' space acc (by simpa using hstate) rfl ?_
              have : (st.bd.boundary.take st.bd.pos).length = st.bd.pos := by
                simp
                omega
              simp [hrec, this]
              omega
            obtain ⟨r', hrun, hres⟩ := ih
              { st with
                  bd := { st.bd with pos := 0 }
                  recovery_buffer := st.recovery_buffer ++ st.bd.boundary.take st.bd.pos
                  previous_char := none } (b :: src') space acc
              ⟨by simpa using hstate, by simpa using hb, by simpa using hm,
                by simpa using hf, by simp, by simpa using hmp,
                by simpa using hfp,
                fun _ => ⟨by simp, by simpa using hmz, by simpa using hfz⟩,
                fun _ => ⟨by simpa using hmz, by simpa using hfz⟩,
                fun _ => ⟨by simpa using hmz, by simpa using hfz⟩,
                fun h _ => absurd (by simpa using h) (by omega),
                fun h _ => absurd (by simpa using h) (by omega)⟩
              rfl
              (by have hlen : (st.bd.boundary.take st.bd.pos).length = st.bd.pos := by
                    simp; omega
                  simp [partFuelN, hrec, hmz, hfz, hlen]
                  omega)
              (by have hlen : (st.bd.boundary.take st.bd.pos).length = st.bd.pos := by
                    simp; omega
                  simp [hrec, hmz, hfz, hlen]
                  omega)
            have hstep : partLoopF (n + 1) st (b :: src') space acc =
                partLoopF n
                  { st with
                      bd := { st.bd with pos := 0 }
                      recovery_buffer := st.recovery_buffer ++ st.bd.boundary.take st.bd.pos
                      previous_char := some b } src' space acc := by
              simp [partLoopF, hs0, hstate, hrec, hprev, hstEq, hdoneB, hpb]
            refine ⟨r', (hstep.trans hprevst).trans hrun, ?_⟩
            cases r' with
            | ok st2 src2 sp2 out2 =>
              have hpend : partPendingBytes st = st.bd.boundary.take st.bd.pos := by
                simp [partPendingBytes, hrec, hprev, hmz, hfz, hdoneB]
              have hpendT : partPendingBytes
                  { st with
                      bd := { st.bd with pos := 0 }
                      recovery_buffer := st.recovery_buffer ++ st.bd.boundary.take st.bd.pos
                      previous_char := none } =
                  st.bd.boundary.take st.bd.pos := by
                have hz : (0 : Nat) ≠ st.bd.boundary.length := by omega
                simp [partPendingBytes, hrec, hmz, hfz, BoundaryDetector.is_done, hz]
              rw [hpendT] at hres
              rw [hpend]
              simp only [List.append_assoc, List.cons_append, List.nil_append,
                List.singleton_append] at hres ⊢
              exact hres
            | err st2 src2 => exact hres
            | panic => exact hres

/-! ## Claim theorems -/

/-- `=` is outside the Base64 alphabet. -/
theorem b64Val_pad : b64Val PAD = none := by decide

theorem b64Val_isSome_ne_pad {c : Nat} (h : (b64Val c).isSome = true) :
    ¬ c = PAD := by
  intro hc
  rw [hc, b64Val_pad] at h
  simp at h

/-- A decoded group holds at most three bytes. -/
theorem b64DecodeGroup_length {c1 c2 c3 c4 : Nat} {bs : List Nat}
    (h : b64DecodeGroup c1 c2 c3 c4 = some bs) : bs.length ≤ 3 := by
  unfold b64DecodeGroup at h
  repeat' split at h
  all_goals simp at h
  all_goals subst h
  all_goals simp

/-- On four alphabet bytes the group decoder succeeds with three bytes. -/
theorem b64DecodeGroup_alpha {c1 c2 c3 c4 a b c d : Nat}
    (h1 : b64Val c1 = some a) (h2 : b64Val c2 = some b)
    (h3 : b64Val c3 = some c) (h4 : b64Val c4 = some d) :
    b64DecodeGroup c1 c2 c3 c4 =
      some [a * 4 + b / 16, b % 16 * 16 + c / 4, c % 4 * 64 + d] := by
  have hc3 : ¬ c3 = PAD := b64Val_isSome_ne_pad (by rw [h3]; rfl)
  have hc4 : ¬ c4 = PAD := b64Val_isSome_ne_pad (by rw [h4]; rfl)
  simp [b64DecodeGroup, h1, h2, h3, h4, hc3, hc4]

/-- Totality and `Ok`-characterisation of the `Base64Reader::read` loop:
with the canonical fuel and a caller buffer larger than anything the loop
can produce, the loop returns, and an `Ok` result certifies the padding
discipline and the four-byte group alignment of the consumed stream. -/
theorem b64Loop_main (fuel : Nat) :
    ∀ st src space acc,
      b64Fuel st src ≤ fuel →
      st.rd_buf.length + st.in_buf.length + src.length < space →
      st.padding_cnt ≤ 2 →
      st.in_buf.length ≤ 3 →
      ∃ r, b64LoopF fuel st src space acc = some r ∧
        ∀ st' rest n out, r = B64LoopRes.ok st' rest n out →
          rest = [] ∧ st'.in_buf = [] ∧
          ((src.dropWhile (· ≠ PAD)).all (· = PAD)) = true ∧
          st.padding_cnt + src.count PAD ≤ 2 ∧
          (st.in_buf.length + src.length) % 4 = 0 ∧
          (0 < st.padding_cnt → src.all (· = PAD) = true) := by
  induction fuel with
  | zero =>
    intro st src space acc hfuel hspace hpad hinlen
    exfalso
    unfold b64Fuel at hfuel
    omega
  | succ fuel ih =>
    intro st src space acc hfuel hspace hpad hinlen
    have hsp0 : ¬ space = 0 := by omega
    cases hrd : st.rd_buf with
    | cons w wRest =>
      have hrdlen : st.rd_buf.length = wRest.length + 1 := by rw [hrd]; rfl
      have hlen : (w :: wRest).length ≤ space := by
        simp only [List.length_cons]
        omega
      have hmin : min space (w :: wRest).length = (w :: wRest).length :=
        Nat.min_eq_right hlen
      obtain ⟨r, hrun, hok⟩ :=
        ih { st with rd_buf := [] } src (space - (w :: wRest).length)
          (acc ++ w :: wRest)
          (by unfold b64Fuel at hfuel ⊢; simp only [List.length_nil]; omega)
          (by simp only [List.length_nil, List.length_cons]; omega)
          hpad hinlen
      refine ⟨r, ?_, hok⟩
      simp only [b64LoopF, hsp0, if_false, hrd, hmin, List.drop_length,
        List.take_length]
      exact hrun
    | nil =>
      have hrdlen : st.rd_buf.length = 0 := by rw [hrd]; rfl
      cases src with
      | nil =>
        by_cases hin : st.in_buf.length = 0
        · refine ⟨B64LoopRes.ok st [] space acc, ?_, ?_⟩
          · simp [b64LoopF, hsp0, hrd, hin]
          · intro st' rest n out hr
            injection hr with h1 h2 h3 h4
            subst h1; subst h2
            exact ⟨rfl, List.eq_nil_of_length_eq_zero hin, by simp,
              by simpa using hpad, by simp [hin], by simp⟩
        · refine ⟨B64LoopRes.err B64Error.unexpectedEof st [], ?_, ?_⟩
          · simp [b64LoopF, hsp0, hrd, hin]
          · intro st' rest n out hr
            cases hr
      | cons b src' =>
        have hfuelE : 2 * src'.length + st.in_buf.length + 3 ≤ fuel + 1 := by
          unfold b64Fuel at hfuel
          simp only [List.length_cons] at hfuel
          omega
        have hspaceE : st.in_buf.length + src'.length + 1 < space := by
          simp only [List.length_cons] at hspace
          omega
        by_cases hb : b = PAD
        · subst hb
          by_cases hp2 : st.padding_cnt ≥ 2
          · refine ⟨B64LoopRes.err B64Error.tooMuchPadding
              { st with is_err := true } src', ?_, ?_⟩
            · simp [b64LoopF, hsp0, hrd, hp2]
            · intro st' rest n out hr
              cases hr
          · by_cases hin3 : st.in_buf.length < 3
            · obtain ⟨r, hrun, hok⟩ :=
                ih ⟨st.in_buf ++ [PAD], [], st.padding_cnt + 1, st.is_err⟩
                  src' space acc
                  (by unfold b64Fuel; simp [hrdlen]; omega)
                  (by simp [hrdlen]; omega)
                  (by simp; omega)
                  (by simp; omega)
              refine ⟨r, ?_, ?_⟩
              · simp only [b64LoopF, hsp0, if_false, hrd]
                simp [hp2, hin3]
                exact hrun
              · intro st' rest n out hr
                obtain ⟨h1, h2, h3, h4, h5, h6⟩ := hok st' rest n out hr
                have hall : src'.all (· = PAD) = true := h6 (by simp)
                have h4' : st.padding_cnt + 1 + src'.count PAD ≤ 2 := by
                  simpa using h4
                have h5' : (st.in_buf.length + 1 + src'.length) % 4 = 0 := by
                  simpa using h5
                refine ⟨h1, h2, ?_, ?_, ?_, ?_⟩
                · simp [List.dropWhile_cons, hall]
                · simp [List.count_cons]
                  omega
                · simp only [List.length_cons]
                  omega
                · intro _
                  simp [hall]
            · have hlen3 : st.in_buf.length = 3 := by omega
              obtain ⟨c1, c2, c3, hin⟩ := List.length_eq_three.mp hlen3
              cases hdec : b64DecodeGroup c1 c2 c3 PAD with
              | none =>
                refine ⟨B64LoopRes.err B64Error.decodeErr
                  { st with
                      padding_cnt := st.padding_cnt + 1
                      in_buf := [] } src', ?_, ?_⟩
                · simp [b64LoopF, hsp0, hrd, hp2, hin3, hin, hdec]
                · intro st' rest n out hr
                  cases hr
              | some bs =>
                have hbs : bs.length ≤ 3 := b64DecodeGroup_length hdec
                have hsp3 : space ≥ 3 := by omega
                obtain ⟨r, hrun, hok⟩ :=
                  ih ⟨[], [], st.padding_cnt + 1, st.is_err⟩
                    src' (space - bs.length) (acc ++ bs)
                    (by unfold b64Fuel; simp [hrdlen]; omega)
                    (by simp [hrdlen]; omega)
                    (by simp; omega)
                    (by simp)
                refine ⟨r, ?_, ?_⟩
                · simp only [b64LoopF, hsp0, if_false, hrd]
                  simp [hp2, hin3, hin, hdec, hsp3]
                  exact hrun
                · intro st' rest n out hr
                  obtain ⟨h1, h2, h3, h4, h5, h6⟩ := hok st' rest n out hr
                  have hall : src'.all (· = PAD) = true := h6 (by simp)
                  have h4' : st.padding_cnt + 1 + src'.count PAD ≤ 2 := by
                    simpa using h4
                  have h5' : src'.length % 4 = 0 := by simpa using h5
                  refine ⟨h1, h2, ?_, ?_, ?_, ?_⟩
                  · simp [List.dropWhile_cons, hall]
                  · simp [List.count_cons]
                    omega
                  · simp only [List.length_cons]
                    omega
                  · intro _
                    simp [hall]
        · by_cases hp0 : 0 < st.padding_cnt
          · refine ⟨B64LoopRes.err B64Error.nonPaddingAfterPadding
              { st with is_err := true } src', ?_, ?_⟩
            · simp [b64LoopF, hsp0, hrd, hb, hp0]
            · intro st' rest n out hr
              cases hr
          · by_cases hin3 : st.in_buf.length < 3
            · obtain ⟨r, hrun, hok⟩ :=
                ih ⟨st.in_buf ++ [b], [], st.padding_cnt, st.is_err⟩
                  src' space acc
                  (by unfold b64Fuel; simp [hrdlen]; omega)
                  (by simp [hrdlen]; omega)
                  (by simpa using hpad)
                  (by simp; omega)
              refine ⟨r, ?_, ?_⟩
              · simp only [b64LoopF, hsp0, if_false, hrd]
                simp [hb, hp0, hin3, hrd]
                exact hrun
              · intro st' rest n out hr
                obtain ⟨h1, h2, h3, h4, h5, h6⟩ := hok st' rest n out hr
                have h4' : st.padding_cnt + src'.count PAD ≤ 2 := by
                  simpa using h4
                have h5' : (st.in_buf.length + 1 + src'.length) % 4 = 0 := by
                  simpa using h5
                refine ⟨h1, h2, ?_, ?_, ?_, ?_⟩
                · simpa [List.dropWhile_cons, hb] using h3
                · simp [List.count_cons, hb]
                  omega
                · simp only [List.length_cons]
                  omega
                · intro hc
                  exact absurd hc hp0
            · have hlen3 : st.in_buf.length = 3 := by omega
              obtain ⟨c1, c2, c3, hin⟩ := List.length_eq_three.mp hlen3
              cases hdec : b64DecodeGroup c1 c2 c3 b with
              | none =>
                refine ⟨B64LoopRes.err B64Error.decodeErr
                  { st with in_buf := [] } src', ?_, ?_⟩
                · simp [b64LoopF, hsp0, hrd, hb, hp0, hin3, hin, hdec]
                · intro st' rest n out hr
                  cases hr
              | some bs =>
                have hbs : bs.length ≤ 3 := b64DecodeGroup_length hdec
                have hsp3 : space ≥ 3 := by omega
                obtain ⟨r, hrun, hok⟩ :=
                  ih ⟨[], [], st.padding_cnt, st.is_err⟩ src' (space - bs.length)
                    (acc ++ bs)
                    (by unfold b64Fuel; simp [hrdlen]; omega)
                    (by simp [hrdlen]; omega)
                    (by simpa using hpad)
                    (by simp)
                refine ⟨r, ?_, ?_⟩
                · simp only [b64LoopF, hsp0, if_false, hrd]
                  simp [hb, hp0, hin3, hin, hdec, hsp3, hrd]
                  exact hrun
                · intro st' rest n out hr
                  obtain ⟨h1, h2, h3, h4, h5, h6⟩ := hok st' rest n out hr
                  have h4' : st.padding_cnt + src'.count PAD ≤ 2 := by
                    simpa using h4
                  have h5' : src'.length % 4 = 0 := by simpa using h5
                  refine ⟨h1, h2, ?_, ?_, ?_, ?_⟩
                  · simpa [List.dropWhile_cons, hb] using h3
                  · simp [List.count_cons, hb]
                    omega
                  · simp only [List.length_cons]
                    omega
                  · intro hc
                    exact absurd hc hp0

/-- On a pure-alphabet stream the `Base64Reader::read` loop never errs
except at EOF inside a group: a four-byte-aligned stream yields `Ok` with
everything consumed, a misaligned one yields the unexpected-EOF error
with the loose bytes still in the group buffer. -/
theorem b64Loop_alpha (fuel : Nat) :
    ∀ st src space acc,
      b64Fuel st src ≤ fuel →
      st.rd_buf.length + st.in_buf.length + src.length < space →
      st.padding_cnt = 0 →
      st.is_err = false →
      st.in_buf.length ≤ 3 →
      st.in_buf.all (fun c => (b64Val c).isSome) = true →
      b64AllAlphabet src = true →
      ∃ r, b64LoopF fuel st src space acc = some r ∧
        ((st.in_buf.length + src.length) % 4 = 0 →
          ∃ n out, r = B64LoopRes.ok ⟨[], [], 0, false⟩ [] n out) ∧
        ((st.in_buf.length + src.length) % 4 ≠ 0 →
          ∃ inb, ¬ inb = [] ∧
            r = B64LoopRes.err B64Error.unexpectedEof ⟨inb, [], 0, false⟩ []) := by
  induction fuel with
  | zero =>
    intro st src space acc hfuel _ _ _ _ _ _
    exfalso
    unfold b64Fuel at hfuel
    omega
  | succ fuel ih =>
    intro st src space acc hfuel hspace hpad herr hinlen hinal halpha
    have hsp0 : ¬ space = 0 := by omega
    cases hrd : st.rd_buf with
    | cons w wRest =>
      have hrdlen : st.rd_buf.length = wRest.length + 1 := by rw [hrd]; rfl
      have hlen : (w :: wRest).length ≤ space := by
        simp only [List.length_cons]
        omega
      have hmin : min space (w :: wRest).length = (w :: wRest).length :=
        Nat.min_eq_right hlen
      obtain ⟨r, hrun, hok⟩ :=
        ih ⟨st.in_buf, [], st.padding_cnt, st.is_err⟩ src
          (space - (w :: wRest).length) (acc ++ w :: wRest)
          (by unfold b64Fuel at hfuel ⊢; simp only [List.length_nil]; omega)
          (by simp only [List.length_nil, List.length_cons]; omega)
          hpad herr hinlen hinal halpha
      refine ⟨r, ?_, hok⟩
      simp only [b64LoopF, hsp0, if_false, hrd, hmin, List.drop_length,
        List.take_length]
      exact hrun
    | nil =>
      have hrdlen : st.rd_buf.length = 0 := by rw [hrd]; rfl
      cases src with
      | nil =>
        by_cases hin : st.in_buf.length = 0
        · have hst : st = ⟨[], [], 0, false⟩ := by
            cases st
            simp_all [List.length_eq_zero]
          refine ⟨B64LoopRes.ok st [] space acc, ?_, ?_, ?_⟩
          · simp [b64LoopF, hsp0, hrd, hin]
          · intro _
            exact ⟨space, acc, by rw [hst]⟩
          · intro hmod
            exact absurd (by simp [hin]) hmod
        · have hst : st = ⟨st.in_buf, [], 0, false⟩ := by
            cases st
            simp_all
          refine ⟨B64LoopRes.err B64Error.unexpectedEof st [], ?_, ?_, ?_⟩
          · simp [b64LoopF, hsp0, hrd, hin]
          · intro hmod
            exfalso
            simp at hmod
            omega
          · intro _
            refine ⟨st.in_buf, ?_, by rw [← hst]⟩
            intro hnil
            exact hin (by rw [hnil]; rfl)
      | cons b src' =>
        have halpha' : (b64Val b).isSome = true ∧ b64AllAlphabet src' = true := by
          simpa [b64AllAlphabet] using halpha
        have hb : ¬ b = PAD := b64Val_isSome_ne_pad halpha'.1
        have hfuelE : 2 * src'.length + st.in_buf.length + 3 ≤ fuel + 1 := by
          unfold b64Fuel at hfuel
          simp only [List.length_cons] at hfuel
          omega
        have hspaceE : st.in_buf.length + src'.length + 1 < space := by
          simp only [List.length_cons] at hspace
          omega
        by_cases hin3 : st.in_buf.length < 3
        · obtain ⟨r, hrun, hok⟩ :=
            ih ⟨st.in_buf ++ [b], [], 0, st.is_err⟩ src' space acc
              (by unfold b64Fuel; simp [hrdlen]; omega)
              (by simp [hrdlen]; omega)
              rfl herr
              (by simp; omega)
              (by simp [hinal, halpha'.1])
              halpha'.2
          refine ⟨r, ?_, ?_, ?_⟩
          · simp only [b64LoopF, hsp0, if_false, hrd]
            simp [hb, hpad, hin3, hrd]
            exact hrun
          · intro hmod
            refine hok.1 ?_
            simp only [List.length_cons] at hmod
            simp only [List.length_append, List.length_cons, List.length_nil]
            omega
          · intro hmod
            refine hok.2 ?_
            simp only [List.length_cons] at hmod
            simp only [List.length_append, List.length_cons, List.length_nil]
            omega
        · have hlen3 : st.in_buf.length = 3 := by omega
          obtain ⟨c1, c2, c3, hin⟩ := List.length_eq_three.mp hlen3
          rw [hin] at hinal
          simp only [List.all_cons, List.all_nil, Bool.and_true,
            Bool.and_eq_true] at hinal
          obtain ⟨h1s, h2s, h3s⟩ := hinal
          obtain ⟨a1, hv1⟩ := Option.isSome_iff_exists.mp h1s
          obtain ⟨a2, hv2⟩ := Option.isSome_iff_exists.mp h2s
          obtain ⟨a3, hv3⟩ := Option.isSome_iff_exists.mp h3s
          obtain ⟨a4, hv4⟩ := Option.isSome_iff_exists.mp halpha'.1
          have hdec := b64DecodeGroup_alpha hv1 hv2 hv3 hv4
          have hsp3 : space ≥ 3 := by omega
          obtain ⟨r, hrun, hok⟩ :=
            ih ⟨[], [], 0, st.is_err⟩ src' (space - 3)
              (acc ++ [a1 * 4 + a2 / 16, a2 % 16 * 16 + a3 / 4,
                a3 % 4 * 64 + a4])
              (by unfold b64Fuel; simp [hrdlen]; omega)
              (by simp [hrdlen]; omega)
              rfl herr (by simp) (by simp) halpha'.2
          refine ⟨r, ?_, ?_, ?_⟩
          · simp only [b64LoopF, hsp0, if_false, hrd]
            simp [hb, hpad, hin3, hin, hdec, hsp3, hrd]
            exact hrun
          · intro hmod
            refine hok.1 ?_
            simp only [List.length_cons] at hmod
            simp only [List.length_nil]
            omega
          · intro hmod
            refine hok.2 ?_
            simp only [List.length_cons] at hmod
            simp only [List.length_nil]
            omega

set_option maxRecDepth 4000 in
theorem b64Val_b64Char : ∀ n, n < 64 → b64Val (b64Char n) = some n := by
  decide

theorem base64_encode_decode (d : List Nat) (h : d.all (· < 256) = true) :
    base64CrateDecode (base64Encode d) = some d := by
  induction d using base64Encode.induct with
  | case1 => rfl
  | case2 a =>
    simp only [List.all_cons, List.all_nil, Bool.and_true,
      decide_eq_true_eq] at h
    have h1 := b64Val_b64Char (a / 4) (by omega)
    have h2 := b64Val_b64Char (a % 4 * 16) (by omega)
    simp [base64Encode, base64CrateDecode, b64DecodeGroup, h1, h2]
    omega
  | case3 a b =>
    simp only [List.all_cons, List.all_nil, Bool.and_true,
      decide_eq_true_eq, Bool.and_eq_true] at h
    have h1 := b64Val_b64Char (a / 4) (by omega)
    have h2 := b64Val_b64Char (a % 4 * 16 + b / 16) (by omega)
    have h3 := b64Val_b64Char (b % 16 * 4) (by omega)
    have hc3 : ¬ b64Char (b % 16 * 4) = PAD :=
      b64Val_isSome_ne_pad (by rw [h3]; rfl)
    simp [base64Encode, base64CrateDecode, b64DecodeGroup, h1, h2, h3, hc3]
    omega
  | case4 a b c rest ih =>
    simp only [List.all_cons, Bool.and_eq_true, decide_eq_true_eq] at h
    obtain ⟨ha, hb, hc, hrest⟩ := h
    have h1 := b64Val_b64Char (a / 4) (by omega)
    have h2 := b64Val_b64Char (a % 4 * 16 + b / 16) (by omega)
    have h3 := b64Val_b64Char (b % 16 * 4 + c / 64) (by omega)
    have h4 := b64Val_b64Char (c % 64) (by omega)
    have hc3 : ¬ b64Char (b % 16 * 4 + c / 64) = PAD :=
      b64Val_isSome_ne_pad (by rw [h3]; rfl)
    have hc4 : ¬ b64Char (c % 64) = PAD :=
      b64Val_isSome_ne_pad (by rw [h4]; rfl)
    have ih' := ih hrest
    cases hrest' : base64Encode rest with
    | nil =>
      rw [hrest'] at ih'
      have hnil : rest = [] := by
        simpa [base64CrateDecode] using ih'
      subst hnil
      simp [base64Encode, hrest', base64CrateDecode, b64DecodeGroup,
        h1, h2, h3, h4, hc3, hc4]
      omega
    | cons e es =>
      rw [hrest'] at ih'
      simp [base64Encode, hrest', base64CrateDecode, b64DecodeGroup,
        h1, h2, h3, h4, hc3, hc4, ih']
      omega


/-- The streaming reader agrees with the crate decoder: on any stream the
crate decodes, the read loop (from a fresh state, with room to spare)
consumes everything and emits exactly the decoded bytes. -/
theorem b64Loop_crate : ∀ n src, src.length ≤ n → ∀ fuel space acc out,
    base64CrateDecode src = some out →
    2 * src.length + 1 ≤ fuel →
    out.length + 3 ≤ space →
    ∃ cnt, b64LoopF fuel ⟨[], [], 0, false⟩ src space acc =
      some (B64LoopRes.ok ⟨[], [], cnt, false⟩ [] (space - out.length)
        (acc ++ out)) := by
  intro n
  induction n with
  | zero =>
    intro src hlen fuel space acc out hdec hfuel hspace
    have hnil : src = [] := List.eq_nil_of_length_eq_zero (by omega)
    subst hnil
    have hout : out = [] := by simpa [base64CrateDecode] using hdec.symm
    subst hout
    obtain ⟨m, rfl⟩ : ∃ m, fuel = m + 1 := ⟨fuel - 1, by omega⟩
    refine ⟨0, ?_⟩
    simp [b64LoopF]
  | succ n ih =>
    intro src hlen fuel space acc out hdec hfuel hspace
    match src with
    | [] =>
      have hout : out = [] := by simpa [base64CrateDecode] using hdec.symm
      subst hout
      obtain ⟨m, rfl⟩ : ∃ m, fuel = m + 1 := ⟨fuel - 1, by omega⟩
      refine ⟨0, ?_⟩
      simp [b64LoopF]
    | [c1] => simp [base64CrateDecode] at hdec
    | [c1, c2] => simp [base64CrateDecode] at hdec
    | [c1, c2, c3] => simp [base64CrateDecode] at hdec
    | c1 :: c2 :: c3 :: c4 :: rest =>
      simp only [List.length_cons] at hlen hfuel
      cases hg : b64DecodeGroup c1 c2 c3 c4 with
      | none => simp [base64CrateDecode, hg] at hdec
      | some bs =>
        cases hv1 : b64Val c1 with
        | none => simp [b64DecodeGroup, hv1] at hg
        | some a1 =>
        cases hv2 : b64Val c2 with
        | none => simp [b64DecodeGroup, hv1, hv2] at hg
        | some a2 =>
        have hc1p : ¬ c1 = PAD := b64Val_isSome_ne_pad (by rw [hv1]; rfl)
        have hc2p : ¬ c2 = PAD := b64Val_isSome_ne_pad (by rw [hv2]; rfl)
        obtain ⟨m, rfl⟩ : ∃ m, fuel = m + 5 := ⟨fuel - 5, by omega⟩
        by_cases h3p : c3 = PAD
        · by_cases h4p : c4 = PAD
          · -- `xx==` final group
            subst h3p; subst h4p
            have hbs : bs = [a1 * 4 + a2 / 16] := by
              have h := hg
              simp [b64DecodeGroup, hv1, hv2] at h
              exact h.symm
            subst hbs
            cases rest with
            | cons r rs =>
              simp [base64CrateDecode, hg] at hdec
            | nil =>
              have hout : out = [a1 * 4 + a2 / 16] := by
                simpa [base64CrateDecode, hg] using hdec.symm
              subst hout
              simp only [List.length_cons, List.length_nil] at hspace
              have hsp : ¬ space = 0 := by omega
              have hsp1 : ¬ space - 1 = 0 := by omega
              refine ⟨2, ?_⟩
              simp [b64LoopF, hsp, hsp1, hc1p, hc2p, hg,
                show 3 ≤ space by omega]
          · -- `=` in position 3 but not 4: the crate rejects this group
            exfalso
            rw [h3p] at hg
            simp [b64DecodeGroup, hv1, hv2, h4p] at hg
        · by_cases h4p : c4 = PAD
          · -- `xxx=` final group
            subst h4p
            cases hv3 : b64Val c3 with
            | none => simp [b64DecodeGroup, hv1, hv2, h3p, hv3] at hg
            | some a3 =>
            have hbs : bs = [a1 * 4 + a2 / 16, a2 % 16 * 16 + a3 / 4] := by
              have h := hg
              simp [b64DecodeGroup, hv1, hv2, h3p, hv3] at h
              exact h.symm
            subst hbs
            cases rest with
            | cons r rs =>
              simp [base64CrateDecode, hg] at hdec
            | nil =>
              have hout : out = [a1 * 4 + a2 / 16, a2 % 16 * 16 + a3 / 4] := by
                simpa [base64CrateDecode, hg] using hdec.symm
              subst hout
              simp only [List.length_cons, List.length_nil] at hspace
              have hsp : ¬ space = 0 := by omega
              have hsp2 : ¬ space - 2 = 0 := by omega
              refine ⟨1, ?_⟩
              simp [b64LoopF, hsp, hsp2, hc1p, hc2p, h3p, hg,
                show 3 ≤ space by omega]
          · -- full alphabet group
            cases hv3 : b64Val c3 with
            | none => simp [b64DecodeGroup, hv1, hv2, h3p, hv3] at hg
            | some a3 =>
            cases hv4 : b64Val c4 with
            | none => simp [b64DecodeGroup, hv1, hv2, h3p, hv3, h4p, hv4] at hg
            | some a4 =>
            have hbs : bs = [a1 * 4 + a2 / 16, a2 % 16 * 16 + a3 / 4,
                a3 % 4 * 64 + a4] := by
              have h := hg
              simp [b64DecodeGroup, hv1, hv2, h3p, hv3, h4p, hv4] at h
              exact h.symm
            subst hbs
            cases rest with
            | nil =>
              have hout : out = [a1 * 4 + a2 / 16, a2 % 16 * 16 + a3 / 4,
                  a3 % 4 * 64 + a4] := by
                simpa [base64CrateDecode, hg] using hdec.symm
              subst hout
              simp only [List.length_cons, List.length_nil] at hspace
              have hsp : ¬ space = 0 := by omega
              have hsp3 : ¬ space - 3 = 0 := by omega
              refine ⟨0, ?_⟩
              simp [b64LoopF, hsp, hsp3, hc1p, hc2p, h3p, h4p, hg,
                show 3 ≤ space by omega]
            | cons r rs =>
              simp only [List.length_cons] at hlen hfuel
              cases hrest : base64CrateDecode (r :: rs) with
              | none =>
                simp [base64CrateDecode, hg, h3p, h4p, hrest] at hdec
              | some bs' =>
                have hout : out = [a1 * 4 + a2 / 16, a2 % 16 * 16 + a3 / 4,
                    a3 % 4 * 64 + a4] ++ bs' := by
                  simpa [base64CrateDecode, hg, h3p, h4p, hrest]
                    using hdec.symm
                subst hout
                simp only [List.length_append, List.length_cons,
                  List.length_nil] at hspace
                obtain ⟨cnt, hrun⟩ :=
                  ih (r :: rs) (by simp; omega) (m + 1) (space - 3)
                    (acc ++ [a1 * 4 + a2 / 16, a2 % 16 * 16 + a3 / 4,
                      a3 % 4 * 64 + a4]) bs' hrest
                    (by simp; omega) (by omega)
                have hsp : ¬ space = 0 := by omega
                refine ⟨cnt, ?_⟩
                have hred : b64LoopF (m + 5) (⟨[], [], 0, false⟩ : Base64Reader)
                    (c1 :: c2 :: c3 :: c4 :: r :: rs) space acc =
                    b64LoopF (m + 1) ⟨[], [], 0, false⟩ (r :: rs) (space - 3)
                      (acc ++ [a1 * 4 + a2 / 16, a2 % 16 * 16 + a3 / 4,
                        a3 % 4 * 64 + a4]) := by
                  simp [b64LoopF, hsp, hc1p, hc2p, h3p, h4p, hg,
                    show 3 ≤ space by omega]
                rw [hred, hrun]
                simp [List.append_assoc]
                omega


theorem base64Encode_length (d : List Nat) :
    d.length ≤ (base64Encode d).length := by
  induction d using base64Encode.induct with
  | case1 => simp [base64Encode]
  | case2 a => simp [base64Encode]
  | case3 a b => simp [base64Encode]
  | case4 a b c rest ih =>
    simp only [base64Encode, List.length_cons]
    omega

/-- The `Base64Writer::write` loop from a fresh writer encodes every full
three-byte group directly and parks the ragged tail in the input buffer. -/
theorem b64wLoop_encodes : ∀ fuel buf processed out,
    processed ≤ buf.length →
    (buf.length - processed) + 2 ≤ fuel →
    ∃ tl enc, b64wLoopF fuel ⟨[], [], false, false⟩ buf processed out =
      some (⟨tl, [], false, false⟩, buf.length, out ++ enc) ∧
      enc ++ base64Encode tl = base64Encode (buf.drop processed) ∧
      tl.length < 3 := by
  intro fuel
  induction fuel with
  | zero =>
    intro buf processed out hp hf
    omega
  | succ fuel ih =>
    intro buf processed out hp hf
    by_cases h0 : buf.length - processed = 0
    · have hdnil : buf.drop processed = [] :=
        List.drop_eq_nil_of_le (by omega)
      refine ⟨[], [], ?_, by simp [hdnil, base64Encode], by simp⟩
      simp [b64wLoopF, h0]
      omega
    · by_cases h3 : processed + 3 ≤ buf.length
      · -- a full three-byte group is encoded in place
        have hdlen : (buf.drop processed).length = buf.length - processed := by
          simp
        rcases hdrop : buf.drop processed with _ | ⟨a, _ | ⟨b, _ | ⟨c, rest'⟩⟩⟩
        · rw [hdrop] at hdlen
          simp at hdlen
          omega
        · rw [hdrop] at hdlen
          simp at hdlen
          omega
        · rw [hdrop] at hdlen
          simp at hdlen
          omega
        · have hdd : buf.drop (processed + 3) = rest' := by
            have h2 : List.drop 3 (List.drop processed buf) = rest' := by
              rw [hdrop]
              simp
            rw [List.drop_drop] at h2
            exact h2
          obtain ⟨tl, enc, hrun, henc, htl⟩ :=
            ih buf (processed + 3) (out ++ base64Encode [a, b, c])
              (by omega) (by omega)
          refine ⟨tl, base64Encode [a, b, c] ++ enc, ?_, ?_, htl⟩
          · have hred : b64wLoopF (fuel + 1) ⟨[], [], false, false⟩ buf
                processed out =
                b64wLoopF fuel ⟨[], [], false, false⟩ buf (processed + 3)
                  (out ++ base64Encode [a, b, c]) := by
              simp [b64wLoopF, h0, h3, hdrop]
            rw [hred, hrun]
            simp
          · rw [hdrop, hdd] at *
            simp only [base64Encode] at henc ⊢
            simp only [List.cons_append, List.nil_append,
              List.append_assoc] at henc ⊢
            rw [henc]
      · -- ragged tail: the remaining one or two bytes are buffered
        obtain ⟨k, rfl⟩ : ∃ k, fuel = k + 1 := ⟨fuel - 1, by omega⟩
        refine ⟨buf.drop processed, [], ?_, by simp,
          by simp only [List.length_drop]; omega⟩
        have hin0 : ¬ (buf.drop processed).length = 0 := by
          simp only [List.length_drop]
          omega
        have hstep1 : b64wLoopF (k + 1 + 1) ⟨[], [], false, false⟩ buf
            processed out =
            b64wLoopF (k + 1) ⟨buf.drop processed, [], false, false⟩ buf
              (processed + (buf.drop processed).length) out := by
          simp [b64wLoopF, h0, h3]
        have hlen2 : buf.length - (processed + (buf.drop processed).length) = 0 := by
          simp
          omega
        have harith : buf.length - (processed + (buf.length - processed)) = 0 := by
          omega
        have harith2 : processed + (buf.length - processed) = buf.length := by
          omega
        rw [hstep1]
        simp [b64wLoopF, harith, harith2]

/-- `Base64Writer` with `write_all` + `finalize` produces exactly the
crate encoding of the data. -/
theorem b64WriterEncode_eq (d : List Nat) :
    b64WriterEncode d = some (base64Encode d) := by
  by_cases hd : d = []
  · subst hd
    rfl
  · have hdl : 0 < d.length := List.length_pos.mpr hd
    obtain ⟨tl, enc, hrun, henc, htl⟩ :=
      b64wLoop_encodes (b64wFuel (Base64Writer.new false) d) d 0 []
        (by omega)
        (by unfold b64wFuel; simp [Base64Writer.new]; omega)
    unfold b64WriterEncode Base64Writer.write
    rw [if_neg (by simp [Base64Writer.new]), if_neg hd]
    have hst : (Base64Writer.new false) = ⟨[], [], false, false⟩ := rfl
    rw [hst] at hrun ⊢
    rw [hrun]
    simp [Base64Writer.finalize, Base64Writer.flush_buffers,
      Base64Writer.flush_write_buffer,
      Base64Writer.read_buffer_into_write_buffer]
    simpa using henc

/-- Writing through `Base64Writer` and reading back through
`Base64Reader` is the identity on byte streams. -/
theorem b64WriterThenReader_eq (d : List Nat) (h : d.all (· < 256) = true) :
    b64WriterThenReader d = some d := by
  obtain ⟨cnt, hrun⟩ :=
    b64Loop_crate (base64Encode d).length (base64Encode d) le_rfl
      (b64Fuel Base64Reader.new (base64Encode d))
      ((base64Encode d).length + 3) [] d
      (base64_encode_decode d h)
      (by unfold b64Fuel; simp [Base64Reader.new])
      (by have := base64Encode_length d; omega)
  have hread : b64ReadAll (base64Encode d) =
      some (B64LoopRes.ok ⟨[], [], cnt, false⟩ []
        ((base64Encode d).length + 3 - d.length) d) := by
    unfold b64ReadAll Base64Reader.read
    rw [if_neg (by omega)]
    simpa using hrun
  simp [b64WriterThenReader, b64WriterEncode_eq, hread]


/-- The string-level Base64 codec round-trips every byte sequence whose
decoded form is valid UTF-8. -/
theorem base64String_roundtrip (d : List Nat) (hlt : d.all (· < 256) = true)
    (h : validUtf8 d = true) :
    base64DecodeToString (base64EncodeToString d) = some d := by
  unfold base64DecodeToString base64EncodeToString
  rw [base64_encode_decode d hlt]
  simp [h]


set_option maxRecDepth 20000 in
theorem encode_hex_char_spec : ∀ b, b < 256 →
    is_valid_hex_digit ((encode_hex_char b).getD 0 0) = true ∧
    is_valid_hex_digit ((encode_hex_char b).getD 1 0) = true ∧
    ¬ (encode_hex_char b).getD 0 0 = LF ∧
    ¬ (encode_hex_char b).getD 0 0 = CR ∧
    hexDigitVal ((encode_hex_char b).getD 0 0) * 16 +
      hexDigitVal ((encode_hex_char b).getD 1 0) = b := by
  decide

/-- Every `QuotedPrintableWriter` unit is nonempty. -/
theorem qpStep_len (st : QuotedPrintableWriter) (b : Nat) :
    1 ≤ ((QuotedPrintableWriter.step st b).2).length := by
  unfold QuotedPrintableWriter.step
  by_cases hlit : b < 128 ∧ b ≠ 61
  · simp only [if_pos hlit]
    repeat' split
    all_goals simp
  · simp only [if_neg hlit]
    repeat' split
    all_goals simp

/-- The Quoted-Printable encoding is at least as long as its input. -/
theorem qpWrite_length : ∀ d st,
    d.length ≤ ((QuotedPrintableWriter.write st d).2).length := by
  intro d
  induction d with
  | nil =>
    intro st
    simp [QuotedPrintableWriter.write]
  | cons b rest ih =>
    intro st
    rcases hs : QuotedPrintableWriter.step st b with ⟨st1, o⟩
    have ho : 1 ≤ o.length := by
      have h := qpStep_len st b
      rw [hs] at h
      exact h
    have hr := ih st1
    simp only [QuotedPrintableWriter.write, hs, List.length_cons,
      List.length_append]
    omega

/-- The streaming Quoted-Printable reader inverts the writer unit by
unit: literals pass through, `=XX` escapes decode, soft breaks vanish. -/
theorem qprGo_write : ∀ d st bufv acc space,
    d.all (· < 256) = true →
    (st.last_written_char = LF → st.line_len = 0) →
    acc.length + d.length ≤ space →
    ∃ bufv', qprGo space (⟨bufv, 0, false⟩ : QuotedPrintableReader)
        ((QuotedPrintableWriter.write st d).2) acc =
      Except.ok ((⟨bufv', 0, false⟩ : QuotedPrintableReader), acc ++ d) := by
  intro d
  induction d with
  | nil =>
    intro st bufv acc space _ _ _
    exact ⟨bufv, by simp [QuotedPrintableWriter.write, qprGo]⟩
  | cons b rest ih =>
    intro st bufv acc space hall hinv hspace
    simp only [List.all_cons, Bool.and_eq_true, decide_eq_true_eq] at hall
    obtain ⟨hb, hrest⟩ := hall
    simp only [List.length_cons] at hspace
    have hacc : ¬ space ≤ acc.length := by omega
    by_cases hlit : b < 128 ∧ ¬ b = 61
    · by_cases hbl : b = LF
      · -- a literal newline resets the column and is never wrapped
        subst hbl
        have hstep : QuotedPrintableWriter.step st LF = (⟨0, LF⟩, [LF]) := by
          simp [QuotedPrintableWriter.step, hlit]
        obtain ⟨bufv', hrun⟩ :=
          ih ⟨0, LF⟩ bufv (acc ++ [LF]) space hrest (fun _ => rfl)
            (by simp; omega)
        refine ⟨bufv', ?_⟩
        simp only [QuotedPrintableWriter.write, hstep]
        simpa [qprGo, hacc, LF] using hrun
      · by_cases hov : 76 < st.line_len + 1 + 1
        · -- literal with a soft line break in front
          have hlast : ¬ st.last_written_char = LF := by
            intro hl
            have h0 := hinv hl
            omega
          have hstep : QuotedPrintableWriter.step st b =
              (⟨0, b⟩, [61, LF, b]) := by
            simp [QuotedPrintableWriter.step, hlit, hbl, hov, hlast]
          obtain ⟨bufv', hrun⟩ :=
            ih ⟨0, b⟩ bufv (acc ++ [b]) space hrest
              (by intro hx; rfl) (by simp; omega)
          refine ⟨bufv', ?_⟩
          simp only [QuotedPrintableWriter.write, hstep]
          simpa [qprGo, hacc, LF, hlit.2] using hrun
        · -- plain literal
          have hstep : QuotedPrintableWriter.step st b =
              (⟨st.line_len + 1, b⟩, [b]) := by
            simp [QuotedPrintableWriter.step, hlit, hbl]
            omega
          obtain ⟨bufv', hrun⟩ :=
            ih ⟨st.line_len + 1, b⟩ bufv (acc ++ [b]) space hrest
              (by intro hx; exact absurd hx hbl) (by simp; omega)
          refine ⟨bufv', ?_⟩
          simp only [QuotedPrintableWriter.write, hstep]
          simpa [qprGo, hacc, LF, hlit.2] using hrun
    · -- `=XX` escape
      have hbl : ¬ b = LF := by
        intro hx
        subst hx
        exact hlit ⟨by decide, by decide⟩
      obtain ⟨s, f, hsf⟩ : ∃ s f, encode_hex_char b = [s, f] := ⟨_, _, rfl⟩
      obtain ⟨hsv, hfv, hsLF, hsCR, hval⟩ := encode_hex_char_spec b hb
      rw [hsf] at hsv hfv hsLF hsCR hval
      simp only [List.getD_cons_zero, List.getD_cons_succ] at hsv hfv hsLF hsCR hval
      have hs10 : ¬ s = 10 := by simpa [LF] using hsLF
      have hs13 : ¬ s = 13 := by simpa [CR] using hsCR
      by_cases hov : 76 < st.line_len + 3 + 3
      · have hlast : ¬ st.last_written_char = LF := by
          intro hl
          have h0 := hinv hl
          omega
        have hstep : QuotedPrintableWriter.step st b =
            (⟨0, b⟩, [61, LF, 61, s, f]) := by
          simp [QuotedPrintableWriter.step, hlit, hbl, hov, hlast, hsf]
        obtain ⟨bufv', hrun⟩ :=
          ih ⟨0, b⟩ s (acc ++ [b]) space hrest
            (by intro hx; rfl) (by simp; omega)
        refine ⟨bufv', ?_⟩
        simp only [QuotedPrintableWriter.write, hstep]
        simpa [qprGo, hacc, LF, CR, hs10, hs13, hsv, hfv, hval] using hrun
      · have hstep : QuotedPrintableWriter.step st b =
            (⟨st.line_len + 3, b⟩, [61, s, f]) := by
          simp [QuotedPrintableWriter.step, hlit, hbl, hsf]
          omega
        obtain ⟨bufv', hrun⟩ :=
          ih ⟨st.line_len + 3, b⟩ s (acc ++ [b]) space hrest
            (by intro hx; exact absurd hx hbl) (by simp; omega)
        refine ⟨bufv', ?_⟩
        simp only [QuotedPrintableWriter.write, hstep]
        simpa [qprGo, hacc, LF, CR, hs10, hs13, hsv, hfv, hval] using hrun

/-- The Quoted-Printable writer/reader pair round-trips every byte
sequence, soft line breaks included. -/
theorem qpRoundTrip_eq (d : List Nat) (h : d.all (· < 256) = true) :
    qpRoundTrip d = some d := by
  have hlen := qpWrite_length d QuotedPrintableWriter.new
  obtain ⟨bufv', hgo⟩ :=
    qprGo_write d QuotedPrintableWriter.new 0 []
      (((QuotedPrintableWriter.write QuotedPrintableWriter.new d).2).length + 1)
      h (fun _ => rfl) (by simp; omega)
  have hmin : min (((QuotedPrintableWriter.write QuotedPrintableWriter.new d).2).length + 1)
      ((QuotedPrintableWriter.write QuotedPrintableWriter.new d).2).length =
      ((QuotedPrintableWriter.write QuotedPrintableWriter.new d).2).length :=
    Nat.min_eq_right (by omega)
  unfold qpRoundTrip qpReadAll QuotedPrintableReader.read qpEncodeAll
  simp [QuotedPrintableReader.new, hmin, hgo]


/-- A list of `=` bytes trivially satisfies the trailing-pad discipline. -/
theorem all_pad_padTrail {m : List Nat} (h : m.all (· = PAD) = true) :
    ((m.dropWhile (· ≠ PAD)).all (· = PAD)) = true := by
  cases m with
  | nil => rfl
  | cons b m' =>
    simp only [List.all_cons, Bool.and_eq_true, decide_eq_true_eq] at h
    simp [List.dropWhile_cons, h.1, h.2]

/-- The trailing-pad discipline restricts to any suffix. -/
theorem padTrail_append_right : ∀ l m : List Nat,
    (((l ++ m).dropWhile (· ≠ PAD)).all (· = PAD)) = true →
    ((m.dropWhile (· ≠ PAD)).all (· = PAD)) = true := by
  intro l
  induction l with
  | nil => intro m h; exact h
  | cons b l' ih =>
    intro m h
    simp only [List.cons_append, List.dropWhile_cons] at h
    by_cases hb : b = PAD
    · subst hb
      rw [if_neg (by simp)] at h
      simp at h
      exact all_pad_padTrail (by simpa using h.2)
    · rw [if_pos (by simp [hb])] at h
      exact ih m h

/-- Under the trailing-pad discipline, everything after a consumed `=`
byte is padding. -/
theorem pads_after_mem : ∀ l m : List Nat,
    (((l ++ m).dropWhile (· ≠ PAD)).all (· = PAD)) = true →
    PAD ∈ l → m.all (· = PAD) = true := by
  intro l
  induction l with
  | nil =>
    intro m _ hm
    simp at hm
  | cons b l' ih =>
    intro m h hm
    simp only [List.cons_append, List.dropWhile_cons] at h
    by_cases hb : b = PAD
    · subst hb
      rw [if_neg (by simp)] at h
      simp at h
      simpa using h.2
    · have hm' : PAD ∈ l' := by
        rcases List.mem_cons.mp hm with h1 | h1
        · exact absurd h1.symm hb
        · exact h1
      rw [if_pos (by simp [hb])] at h
      exact ih m h hm'


/-- On a stream of alphabet-or-`=` bytes obeying the trailing-pad
discipline, the `Base64Reader::read` loop headed for a misaligned EOF
always answers with the unexpected-EOF error, the source exhausted and
the loose bytes left in the group buffer.  `cnt0` counts the `=` bytes
consumed before the bytes still sitting in the group buffer. -/
theorem b64Loop_eof (fuel : Nat) : ∀ st src space acc cnt0,
    b64Fuel st src ≤ fuel →
    st.rd_buf = [] →
    st.is_err = false →
    st.in_buf.length ≤ 3 →
    st.padding_cnt = cnt0 + st.in_buf.count PAD →
    cnt0 + (st.in_buf ++ src).count PAD ≤ 2 →
    (st.in_buf ++ src).all (fun b => (b64Val b).isSome || b == PAD) = true →
    (((st.in_buf ++ src).dropWhile (· ≠ PAD)).all (· = PAD)) = true →
    (0 < cnt0 → (st.in_buf ++ src).all (· = PAD) = true) →
    st.in_buf.length + src.length < space →
    (st.in_buf.length + src.length) % 4 ≠ 0 →
    ∃ inb cnt, ¬ inb = [] ∧ b64LoopF fuel st src space acc =
      some (B64LoopRes.err B64Error.unexpectedEof ⟨inb, [], cnt, false⟩ []) := by
  induction fuel with
  | zero =>
    intro st src space acc cnt0 hfuel _ _ _ _ _ _ _ _ _ _
    exfalso
    unfold b64Fuel at hfuel
    omega
  | succ fuel ih =>
    intro st src space acc cnt0 hfuel hrd herr hinlen hcnt hcount halpha htrail hall0 hspace hmod
    have hsp0 : ¬ space = 0 := by omega
    have hrdlen : st.rd_buf.length = 0 := by rw [hrd]; rfl
    cases src with
    | nil =>
      have hin0 : ¬ st.in_buf.length = 0 := by
        simp only [List.length_nil] at hmod
        omega
      refine ⟨st.in_buf, st.padding_cnt, ?_, ?_⟩
      · intro hnil
        exact hin0 (by rw [hnil]; rfl)
      · have hst : (⟨st.in_buf, [], st.padding_cnt, false⟩ : Base64Reader) = st := by
          rw [← hrd, ← herr]
        rw [hst]
        simp [b64LoopF, hsp0, hrd, hin0]
    | cons b src' =>
      have hfuelE : 2 * src'.length + st.in_buf.length + 3 ≤ fuel + 1 := by
        unfold b64Fuel at hfuel
        simp only [List.length_cons] at hfuel
        omega
      have hspaceE : st.in_buf.length + src'.length + 1 < space := by
        simp only [List.length_cons] at hspace
        omega
      have hmodE : (st.in_buf.length + (src'.length + 1)) % 4 ≠ 0 := by
        simpa using hmod
      have hcountE : cnt0 + (st.in_buf.count PAD +
          (src'.count PAD + if b = PAD then 1 else 0)) ≤ 2 := by
        simp only [List.count_append, List.count_cons] at hcount
        simpa [beq_iff_eq] using hcount
      by_cases hb : b = PAD
      · subst hb
        have hcountP : cnt0 + st.in_buf.count PAD + src'.count PAD + 1 ≤ 2 := by
          have h := hcountE
          simp at h
          omega
        have hnp2 : ¬ st.padding_cnt ≥ 2 := by omega
        by_cases hin3 : st.in_buf.length < 3
        · -- buffer the pad byte
          have hcnt' : st.padding_cnt + 1 =
              cnt0 + (st.in_buf ++ [PAD]).count PAD := by
            simp [List.count_append, List.count_cons]
            omega
          have hcount' : cnt0 + ((st.in_buf ++ [PAD]) ++ src').count PAD ≤ 2 := by
            simp [List.count_append, List.count_cons]
            omega
          obtain ⟨inb, cnt, hne, hrun⟩ :=
            ih ⟨st.in_buf ++ [PAD], [], st.padding_cnt + 1, false⟩ src' space acc
              cnt0
              (by unfold b64Fuel; simp; omega)
              rfl rfl
              (by simp; omega)
              hcnt' hcount'
              (by simpa [List.append_assoc] using halpha)
              (by simpa [List.append_assoc] using htrail)
              (by intro h0
                  simpa [List.append_assoc] using hall0 h0)
              (by simp; omega)
              (by simp; omega)
          refine ⟨inb, cnt, hne, ?_⟩
          simp only [b64LoopF, hsp0, if_false, hrd]
          simp [hnp2, hin3, herr]
          exact hrun
        · -- the pad completes a group, which decodes
          have hlen3 : st.in_buf.length = 3 := by omega
          obtain ⟨c1, c2, c3, hin⟩ := List.length_eq_three.mp hlen3
          rw [hin] at halpha htrail hcountP hcnt
          have hc1 : ¬ c1 = PAD := by
            intro h1
            subst h1
            have hrest := pads_after_mem [PAD] (c2 :: c3 :: PAD :: src')
              (by simpa using htrail) (by simp)
            simp at hrest
            simp [List.count_cons, hrest.1, hrest.2.1] at hcountP
            omega
          have hc2 : ¬ c2 = PAD := by
            intro h2
            subst h2
            have hrest := pads_after_mem [c1, PAD] (c3 :: PAD :: src')
              (by simpa using htrail) (by simp)
            simp at hrest
            simp [List.count_cons, hrest.1] at hcountP
            omega
          simp only [List.all_cons, List.all_append, Bool.and_eq_true] at halpha
          obtain ⟨a1, hv1⟩ : ∃ a, b64Val c1 = some a := by
            have h := halpha.1.1
            simp [hc1] at h
            exact Option.isSome_iff_exists.mp h
          obtain ⟨a2, hv2⟩ : ∃ a, b64Val c2 = some a := by
            have h := halpha.1.2.1
            simp [hc2] at h
            exact Option.isSome_iff_exists.mp h
          have hall' : src'.all (· = PAD) = true :=
            pads_after_mem (c1 :: c2 :: c3 :: [PAD]) src'
              (by simpa using htrail) (by simp)
          have hsp3 : 3 ≤ space := by omega
          have hc12cnt : ([c1, c2, c3] : List Nat).count PAD ≤ 1 := by
            simp [List.count_cons, hc1, hc2]
            by_cases h3 : c3 = PAD <;> simp [h3]
          by_cases hc3 : c3 = PAD
          · -- `xx` `=` `=`: one decoded byte
            subst hc3
            have hdec : b64DecodeGroup c1 c2 PAD PAD =
                some [a1 * 4 + a2 / 16] := by
              simp [b64DecodeGroup, hv1, hv2]
            have hfuel4 : b64Fuel (⟨[], [], st.padding_cnt + 1, false⟩ : Base64Reader) src' ≤ fuel := by
              unfold b64Fuel
              simp
              omega
            have hspace4 : (0 : Nat) + src'.length < space - 1 := by omega
            have hcount4 : st.padding_cnt + 1 +
                (([] : List Nat) ++ src').count PAD ≤ 2 := by
              simp
              omega
            obtain ⟨inb, cnt, hne, hrun⟩ :=
              ih ⟨[], [], st.padding_cnt + 1, false⟩ src' (space - 1)
                (acc ++ [a1 * 4 + a2 / 16]) (st.padding_cnt + 1)
                hfuel4 rfl rfl (by simp) (by simp)
                hcount4
                (by simpa using halpha.2)
                (by simpa using all_pad_padTrail hall')
                (by intro _
                    simpa using hall')
                (by simpa using hspace4)
                (by simp; omega)
            refine ⟨inb, cnt, hne, ?_⟩
            simp only [b64LoopF, hsp0, if_false, hrd]
            simp [hnp2, hin3, hin, hdec, hsp3, herr, hrd]
            exact hrun
          · -- `xxx` `=`: two decoded bytes
            obtain ⟨a3, hv3⟩ : ∃ a, b64Val c3 = some a := by
              have h := halpha.1.2.2
              simp [List.all_cons, hc3] at h
              exact Option.isSome_iff_exists.mp h
            have hdec : b64DecodeGroup c1 c2 c3 PAD =
                some [a1 * 4 + a2 / 16, a2 % 16 * 16 + a3 / 4] := by
              simp [b64DecodeGroup, hv1, hv2, hc3, hv3]
            have hfuel4 : b64Fuel (⟨[], [], st.padding_cnt + 1, false⟩ : Base64Reader) src' ≤ fuel := by
              unfold b64Fuel
              simp
              omega
            have hcount4 : st.padding_cnt + 1 +
                (([] : List Nat) ++ src').count PAD ≤ 2 := by
              simp
              omega
            obtain ⟨inb, cnt, hne, hrun⟩ :=
              ih ⟨[], [], st.padding_cnt + 1, false⟩ src' (space - 2)
                (acc ++ [a1 * 4 + a2 / 16, a2 % 16 * 16 + a3 / 4])
                (st.padding_cnt + 1)
                hfuel4 rfl rfl (by simp) (by simp)
                hcount4
                (by simpa using halpha.2)
                (by simpa using all_pad_padTrail hall')
                (by intro _
                    simpa using hall')
                (by simp; omega)
                (by simp; omega)
            refine ⟨inb, cnt, hne, ?_⟩
            simp only [b64LoopF, hsp0, if_false, hrd]
            simp [hnp2, hin3, hin, hdec, hsp3, herr, hrd]
            exact hrun
      · -- a non-pad byte can only arrive while no pad has been consumed
        have hnopadin : ¬ PAD ∈ st.in_buf := by
          intro hm
          have := pads_after_mem st.in_buf (b :: src') htrail hm
          simp at this
          exact hb this.1
        have hcnt00 : cnt0 = 0 := by
          by_contra h0
          have := hall0 (by omega)
          simp at this
          exact hb this.2.1
        have hinc : st.in_buf.count PAD = 0 :=
          List.count_eq_zero.mpr hnopadin
        have hpc : st.padding_cnt = 0 := by omega
        by_cases hin3 : st.in_buf.length < 3
        · have hcnt' : (0 : Nat) = 0 + (st.in_buf ++ [b]).count PAD := by
            simp [List.count_append, List.count_cons, hb, hinc]
          have hcount' : 0 + ((st.in_buf ++ [b]) ++ src').count PAD ≤ 2 := by
            simp [List.count_append, List.count_cons, hb, hinc]
            simp [hb] at hcountE
            omega
          obtain ⟨inb, cnt, hne, hrun⟩ :=
            ih ⟨st.in_buf ++ [b], [], 0, false⟩ src' space acc 0
              (by unfold b64Fuel; simp; omega)
              rfl rfl
              (by simp; omega)
              hcnt' hcount'
              (by simpa [List.append_assoc] using halpha)
              (by simpa [List.append_assoc] using htrail)
              (by intro h0
                  exact absurd h0 (by omega))
              (by simp; omega)
              (by simp; omega)
          refine ⟨inb, cnt, hne, ?_⟩
          simp only [b64LoopF, hsp0, if_false, hrd]
          simp [hb, hpc, hin3, herr, hrd]
          exact hrun
        · -- the byte completes an all-alphabet group
          have hlen3 : st.in_buf.length = 3 := by omega
          obtain ⟨c1, c2, c3, hin⟩ := List.length_eq_three.mp hlen3
          rw [hin] at halpha htrail hnopadin
          have hc1 : ¬ c1 = PAD := by
            intro h1
            exact hnopadin (by simp [h1])
          have hc2 : ¬ c2 = PAD := by
            intro h2
            exact hnopadin (by simp [h2])
          have hc3 : ¬ c3 = PAD := by
            intro h3
            exact hnopadin (by simp [h3])
          simp only [List.all_cons, List.all_append, Bool.and_eq_true] at halpha
          obtain ⟨a1, hv1⟩ : ∃ a, b64Val c1 = some a := by
            have h := halpha.1.1
            simp [hc1] at h
            exact Option.isSome_iff_exists.mp h
          obtain ⟨a2, hv2⟩ : ∃ a, b64Val c2 = some a := by
            have h := halpha.1.2.1
            simp [hc2] at h
            exact Option.isSome_iff_exists.mp h
          obtain ⟨a3, hv3⟩ : ∃ a, b64Val c3 = some a := by
            have h := halpha.1.2.2
            simp [List.all_cons, hc3] at h
            exact Option.isSome_iff_exists.mp h
          obtain ⟨a4, hv4⟩ : ∃ a, b64Val b = some a := by
            have h := halpha.2.1
            simp [hb] at h
            exact Option.isSome_iff_exists.mp h
          have hdec : b64DecodeGroup c1 c2 c3 b =
              some [a1 * 4 + a2 / 16, a2 % 16 * 16 + a3 / 4,
                a3 % 4 * 64 + a4] := by
            simp [b64DecodeGroup, hv1, hv2, hc3, hv3, hb, hv4]
          have hsp3 : 3 ≤ space := by omega
          have hfuel4 : b64Fuel (⟨[], [], 0, false⟩ : Base64Reader) src' ≤ fuel := by
            unfold b64Fuel
            simp
            omega
          have hcount4 : (0 : Nat) + (([] : List Nat) ++ src').count PAD ≤ 2 := by
            simp
            simp [hb] at hcountE
            omega
          obtain ⟨inb, cnt, hne, hrun⟩ :=
            ih ⟨[], [], 0, false⟩ src' (space - 3)
              (acc ++ [a1 * 4 + a2 / 16, a2 % 16 * 16 + a3 / 4,
                a3 % 4 * 64 + a4]) 0
              hfuel4 rfl rfl (by simp) (by simp)
              hcount4
              (by simpa using halpha.2.2)
              (by simpa using padTrail_append_right (c1 :: c2 :: c3 :: [b]) src'
                    (by simpa using htrail))
              (by intro h0
                  exact absurd h0 (by omega))
              (by simp; omega)
              (by simp; omega)
          refine ⟨inb, cnt, hne, ?_⟩
          simp only [b64LoopF, hsp0, if_false, hrd]
          simp [hb, hpc, hin3, hin, hdec, hsp3, herr, hrd]
          exact hrun

/-- C1: the claim fails on the code.  `MailHeaderReader::read` with a
1-byte caller buffer on source CR CR never returns: after the broken match
refills the 2-byte recovery buffer, the inner drain loop copies
`min(rd_buf_sz, space) = 0` bytes per iteration once the buffer is full and
spins forever (second conjunct: the drain recursion yields no result for
any fuel).  `QuotedPrintableReader::read` with a 1-byte buffer on source
`"=41"` returns `Ok(0)` without reaching end-of-stream — the caller-driven
loop stops, losing the decoded byte `A` that the unbounded drive (fourth
conjunct) produces. -/
theorem c1_read_progress_violations :
    (MailHeaderReader.new true).read [CR, CR] 1 = none ∧
    (∀ fuel acc, mhrDrainGo fuel [CR] 0 acc = none) ∧
    QuotedPrintableReader.new.read [61, 52, 49] 1 =
      Except.ok ([], ⟨0, 1, false⟩, [52, 49]) ∧
    qpReadAll [61, 52, 49] = Except.ok ([65], ⟨52, 0, false⟩, []) := by
  refine ⟨by decide, ?_, by decide, by decide⟩
  intro fuel acc
  induction fuel with
  | zero => rfl
  | succ n ih => simpa [mhrDrainGo] using ih

/-- C2 amended: for both the header splitter and the multipart part
reader, driving a fresh reader to completion with an unbounded buffer
accounts for every consumed byte exactly once and in order: the source
equals emitted output, then the bytes still held speculatively by the
detectors (elided delimiter bytes on success, the abandoned partial match
at EOF), then the unread remainder.  On the part reader an EOF error can
only occur with the source exhausted (its buffered output is discarded by
the error return), and the LF-only mode can panic. -/
theorem c2_conservation_amended :
    (∀ in_mail src, ∃ r, mhrReadAll in_mail src = some r ∧
      match r with
      | MhrRead.ok out st' rest =>
          src = out ++ st'.bd.boundary.take st'.bd.pos ++ rest
      | MhrRead.err st' rest =>
          src = st'.bd.boundary.take st'.bd.pos ++ rest
      | MhrRead.panic => False) ∧
    (∀ marker single_nl src, ∃ r, partReadAll marker single_nl src = some r ∧
      match r with
      | PartLoopRes.ok st' rest _ out =>
          src = out ++ partPendingBytes st' ++ rest
      | PartLoopRes.err _ rest => rest = []
      | PartLoopRes.panic => single_nl = true) := by
  constructor
  · intro in_mail src
    obtain ⟨st', src', space', out, hrun, heq, hrd, hbd⟩ :=
      mhrLoop_conserves (mhrFuel (MailHeaderReader.new in_mail) src)
        (MailHeaderReader.new in_mail) src (src.length + 6) []
        le_rfl
        (by simp [MailHeaderReader.new, BoundaryDetector.new])
        rfl (by simp [MailHeaderReader.new, BoundaryDetector.new])
    have heq' : src = out ++ st'.bd.boundary.take st'.bd.pos ++ src' := by
      simpa [MailHeaderReader.new, BoundaryDetector.new] using heq
    simp only [MailHeaderReader.new] at hrun
    by_cases hc : out = [] ∧ st'.is_unexpected_eof = true
    · refine ⟨MhrRead.err st' src', ?_, ?_⟩
      · simp [mhrReadAll, MailHeaderReader.read, MailHeaderReader.new, hrun,
          hc.1, hc.2]
      · rw [hc.1] at heq'
        simpa using heq'
    · refine ⟨MhrRead.ok out st' src', ?_, heq'⟩
      simp [mhrReadAll, MailHeaderReader.read, MailHeaderReader.new, hrun, hc]
  · intro marker single_nl src
    obtain ⟨r, hrun, hres⟩ :=
      partLoop_conserves single_nl marker
        (partFuel (PartReader.new marker single_nl) src)
        (PartReader.new marker single_nl) src (src.length + 1) []
        ⟨rfl, rfl, rfl, rfl, by simp [PartReader.new, BoundaryDetector.new],
          by simp [PartReader.new, BoundaryDetector.new],
          by simp [PartReader.new, BoundaryDetector.new],
          fun h => absurd h (by simp [PartReader.new]),
          fun _ => ⟨by simp [PartReader.new, BoundaryDetector.new],
            by simp [PartReader.new, BoundaryDetector.new]⟩,
          fun _ => ⟨by simp [PartReader.new, BoundaryDetector.new],
            by simp [PartReader.new, BoundaryDetector.new]⟩,
          fun h _ => absurd h (by
            simp [PartReader.new, BoundaryDetector.new]
            cases single_nl <;> simp <;> omega),
          fun h _ => absurd h (by
            simp [PartReader.new, BoundaryDetector.new]
            cases single_nl <;> simp <;> omega)⟩
        rfl
        (by simp [partFuelN, partFuel, PartReader.new, BoundaryDetector.new])
        (by simp [PartReader.new, BoundaryDetector.new])
    refine ⟨r, hrun, ?_⟩
    cases r with
    | ok st2 src2 sp2 out2 =>
      have hres' : [] ++ partPendingBytes (PartReader.new marker single_nl) ++ src =
          out2 ++ partPendingBytes st2 ++ src2 := hres
      have hpnew : partPendingBytes (PartReader.new marker single_nl) = [] := by
        cases single_nl <;>
          simp [partPendingBytes, PartReader.new, BoundaryDetector.new,
            BoundaryDetector.is_done]
      rw [hpnew] at hres'
      simpa using hres'
    | err st2 src2 => exact hres
    | panic => exact hres

/-- C2 counterexample: in non-embedded mode, a partial delimiter match
still pending at source EOF is discarded, not replayed.  On source
`[65, CR]` the header splitter consumes both bytes (remaining source `[]`),
finishes, and emits only `[65]`; the CR sits abandoned in the detector
(`pos = 1`). -/
theorem c2_eof_partial_match_dropped :
    mhrReadAll false [65, CR] =
      some (MhrRead.ok [65] ⟨false, false, true, [], ⟨[CR, LF, CR, LF], 1⟩⟩ []) := by
  decide

/-- C3: the claim fails on the code.  On the header bytes CR CR LF CR LF
(embedded mode) the CRLF CRLF terminator starting at the second byte is
never detected: after `MatchBroke([CR])` the breaking CR is appended to the
replay buffer as literal output instead of being re-processed from the
reset detector, so the splitter emits CR CR LF, leaves the final CR LF as a
dangling partial match (`pos = 2`) and flags unexpected EOF. -/
theorem c3_breaking_byte_not_reprocessed :
    mhrReadAll true [CR, CR, LF, CR, LF] =
      some (MhrRead.ok [CR, CR, LF]
        ⟨true, true, false, [], ⟨[CR, LF, CR, LF], 2⟩⟩ []) := by
  decide

/-- C4: with boundary marker `"some-boundary"` and CRLF newlines, reading
`"some text\r\n--some-boundary--\r\n"` yields body `"some text"` and state
`FoundFinalBoundary`; reading `"some text\r\n--some-boundary\r\n"` yields
body `"some text"` and state `FoundMiddleBoundary`; both runs consume the
whole source and every further read returns `Ok(0)` without touching the
source or the buffer. -/
theorem c4_multipart_disambiguation :
    partReadAll someBoundaryMarker false finalBoundaryInput =
      some (PartLoopRes.ok c4FinalState [] 22 someTextBytes) ∧
    c4FinalState.state = PartReaderState.FoundFinalBoundary ∧
    c4FinalState.read [] 5 = some (PartLoopRes.ok c4FinalState [] 5 []) ∧
    partReadAll someBoundaryMarker false middleBoundaryInput =
      some (PartLoopRes.ok c4MiddleState [] 20 someTextBytes) ∧
    c4MiddleState.state = PartReaderState.FoundMiddleBoundary ∧
    c4MiddleState.read [] 5 = some (PartLoopRes.ok c4MiddleState [] 5 []) := by
  refine ⟨by decide, by decide, by decide, by decide, by decide, by decide⟩

/-- C5: the claim fails on the code for `Base64Reader`.  On source
`"YQ==="` the first read returns the too-much-padding error and sets
`is_err`, but no path ever consults `is_err`: the next read hits source
EOF with an empty group buffer and returns `Ok(0)` — a non-error — instead
of an error.  (`QuotedPrintableReader` does latch, third conjunct.) -/
theorem c5_base64_error_not_latched :
    b64ReadAll [89, 81, 61, 61, 61] =
      some (B64LoopRes.err B64Error.tooMuchPadding ⟨[], [], 2, true⟩ []) ∧
    (Base64Reader.mk [] [] 2 true).read [] 8 =
      some (B64LoopRes.ok ⟨[], [], 2, true⟩ [] 8 []) ∧
    (∀ b off src space, (QuotedPrintableReader.mk b off true).read src space =
      Except.error (⟨b, off, true⟩, src)) := by
  refine ⟨by decide, by decide, fun b off src space => rfl⟩

/-- C6: the `Base64Reader` rejects every stream whose padding discipline
is broken (more than two `=` bytes, or any non-`=` byte after a `=`) or
whose length is not a multiple of four; any stream of alphabet-or-`=`
bytes with intact padding that ends mid-group yields exactly the
unexpected-EOF error with the source exhausted; and `"YQ=="`, `"YWE="`,
`"YWFh"` decode to `"a"`, `"aa"`, `"aaa"`. -/
theorem c6_base64_validation :
    (∀ src : List Nat, ¬ (b64PadOk src = true ∧ src.length % 4 = 0) →
      ∃ e st rest, b64ReadAll src = some (B64LoopRes.err e st rest)) ∧
    (∀ src : List Nat, b64PadOk src = true →
      src.all (fun b => (b64Val b).isSome || b == PAD) = true →
      src.length % 4 ≠ 0 →
      ∃ inb cnt, ¬ inb = [] ∧ b64ReadAll src =
        some (B64LoopRes.err B64Error.unexpectedEof ⟨inb, [], cnt, false⟩ [])) ∧
    b64ReadAll [89, 81, 61, 61] =
      some (B64LoopRes.ok ⟨[], [], 2, false⟩ [] 6 [97]) ∧
    b64ReadAll [89, 87, 69, 61] =
      some (B64LoopRes.ok ⟨[], [], 1, false⟩ [] 5 [97, 97]) ∧
    b64ReadAll [89, 87, 70, 104] =
      some (B64LoopRes.ok ⟨[], [], 0, false⟩ [] 4 [97, 97, 97]) := by
  refine ⟨?_, ?_, by decide, by decide, by decide⟩
  · intro src hbad
    obtain ⟨r, hrun, hok⟩ :=
      b64Loop_main (b64Fuel Base64Reader.new src) Base64Reader.new src
        (src.length + 3) [] le_rfl
        (by simp [Base64Reader.new]) (by simp [Base64Reader.new])
        (by simp [Base64Reader.new])
    have hread : b64ReadAll src = some r := by
      unfold b64ReadAll Base64Reader.read
      rw [if_neg (by omega)]
      exact hrun
    cases r with
    | ok st' rest n out =>
      obtain ⟨h1, h2, h3, h4, h5, h6⟩ := hok st' rest n out rfl
      have hc : src.count PAD ≤ 2 := by simpa [Base64Reader.new] using h4
      have hm : src.length % 4 = 0 := by simpa [Base64Reader.new] using h5
      have hpo : b64PadOk src = true := by
        unfold b64PadOk
        rw [h3]
        simpa using hc
      exact absurd ⟨hpo, hm⟩ hbad
    | err e st rest => exact ⟨e, st, rest, hread⟩
  · intro src hpadOk halpha hmod
    simp only [b64PadOk, Bool.and_eq_true, decide_eq_true_eq] at hpadOk
    obtain ⟨inb, cnt, hne, hrun⟩ :=
      b64Loop_eof (b64Fuel Base64Reader.new src) Base64Reader.new src
        (src.length + 3) [] 0 le_rfl rfl rfl
        (by simp [Base64Reader.new])
        (by simp [Base64Reader.new])
        (by simpa [Base64Reader.new] using hpadOk.2)
        (by simpa [Base64Reader.new] using halpha)
        (by simpa [Base64Reader.new] using hpadOk.1)
        (by intro h0
            exact absurd h0 (by omega))
        (by simp [Base64Reader.new])
        (by simpa [Base64Reader.new] using hmod)
    refine ⟨inb, cnt, hne, ?_⟩
    unfold b64ReadAll Base64Reader.read
    rw [if_neg (by omega)]
    exact hrun

/-- Witness for `c6_base64_validation` at the sources `"==="` and `"YQ="`. -/
theorem c6_base64_validation_witness :
    (∃ e st rest, b64ReadAll [61, 61, 61] = some (B64LoopRes.err e st rest)) ∧
    (∃ inb cnt, ¬ inb = [] ∧ b64ReadAll [89, 81, 61] =
      some (B64LoopRes.err B64Error.unexpectedEof ⟨inb, [], cnt, false⟩ [])) :=
  ⟨c6_base64_validation.1 [61, 61, 61] (by decide),
    c6_base64_validation.2.1 [89, 81, 61] (by decide) (by decide) (by decide)⟩

/-- C7 counterexample: `flush()` on a writer constructed with
`finalize_on_flush = false` and a buffered 1-byte partial group does not
leave the partial group buffered: `flush_buffers` encodes it (padded, as
`"YQ=="`) and empties the input buffer. -/
theorem c7_flush_encodes_partial_group :
    (Base64Writer.mk [97] [] false false).flush =
      some (⟨[], [], false, false⟩, [89, 81, 61, 61]) := by
  decide

/-- C7 amended: every write after finalization errors; `finalize()`
encodes and pads whatever partial group is buffered; `flush()` does the
same whether or not `finalize_on_flush` is set — the flag only decides
whether the writer is additionally marked finalized. -/
theorem c7_finalize_flush_behavior :
    (∀ in_buf w fof buf, (Base64Writer.mk in_buf w true fof).write buf = none) ∧
    (∀ in_buf w fof, (Base64Writer.mk in_buf w false fof).finalize =
      some (⟨[], [], true, fof⟩, w ++ base64Encode in_buf)) ∧
    (∀ in_buf w, (Base64Writer.mk in_buf w false false).flush =
      some (⟨[], [], false, false⟩, w ++ base64Encode in_buf)) ∧
    (∀ in_buf w, (Base64Writer.mk in_buf w false true).flush =
      some (⟨[], [], true, true⟩, w ++ base64Encode in_buf)) := by
  refine ⟨fun in_buf w fof buf => rfl, fun in_buf w fof => rfl,
    fun in_buf w => rfl, fun in_buf w => rfl⟩

/-- C8 counterexample: the streaming reader rejects lowercase hex escapes.
`"=c5"` produces the invalid-escape error (and latches), while `"=C5"`
decodes to byte 0xC5 — so upper- and lowercase escapes are not treated
alike, contrary to the claim. -/
theorem c8_lowercase_hex_rejected :
    qpReadAll [61, 99, 53] = Except.error (⟨0, 1, true⟩, []) ∧
    qpReadAll [61, 67, 53] = Except.ok ([197], ⟨67, 0, false⟩, []) := by
  refine ⟨by decide, by decide⟩

set_option maxRecDepth 20000 in
/-- C8 amended: a `=` escape decodes exactly when both digits are
uppercase hex digits (or decimal digits), yielding the corresponding byte;
any other byte after `=` — lowercase hex digits included, the soft-break
bytes LF and CR excepted — raises the invalid-escape error. -/
theorem c8_uppercase_only_escapes :
    (∀ d1 ∈ qpHexDigits, ∀ d2 ∈ qpHexDigits,
      qpReadAll [61, d1, d2] =
        Except.ok ([hexDigitVal d1 * 16 + hexDigitVal d2], ⟨d1, 0, false⟩, [])) ∧
    (∀ b, b < 256 → b ≠ LF → b ≠ CR → is_valid_hex_digit b = false →
      qpReadAll [61, b] = Except.error (⟨0, 1, true⟩, [])) := by
  constructor
  · decide
  · have h : ∀ b < 256, b = LF ∨ b = CR ∨ is_valid_hex_digit b = true ∨
        qpReadAll [61, b] = Except.error (⟨0, 1, true⟩, []) := by decide
    intro b hb h1 h2 h3
    rcases h b hb with h' | h' | h' | h'
    · exact absurd h' h1
    · exact absurd h' h2
    · rw [h3] at h'
      simp at h'
    · exact h'

/-- Witness for `c8_uppercase_only_escapes` at `"=C5"` and `"=c"`. -/
theorem c8_uppercase_only_escapes_witness :
    qpReadAll [61, 67, 53] =
      Except.ok ([hexDigitVal 67 * 16 + hexDigitVal 53], ⟨67, 0, false⟩, []) ∧
    qpReadAll [61, 99] = Except.error (⟨0, 1, true⟩, []) :=
  ⟨c8_uppercase_only_escapes.1 67 (by decide) 53 (by decide),
   c8_uppercase_only_escapes.2 99 (by decide) (by decide) (by decide) (by decide)⟩

/-- C9 counterexample: the string-level round trip fails on the byte
sequence `[255]`: `Base64Encoder` produces `"/w=="`, but
`Base64Decoder::decode_to_string` refuses the decoded bytes because they
are not valid UTF-8. -/
theorem c9_string_level_roundtrip_fails :
    base64EncodeToString [255] = [47, 119, 61, 61] ∧
    base64DecodeToString [47, 119, 61, 61] = none := by
  refine ⟨by decide, by decide⟩

/-- C9 amended: the Base64 round trip is the identity on byte streams
(bytes below 256), at the crate level and through the writer/reader
pair; the string-level codec round-trips exactly the payloads whose
bytes form valid UTF-8; and the Quoted-Printable writer/reader pair
round-trips every byte stream, soft line breaks and `=XX` escapes
included. -/
theorem c9_byte_level_roundtrips :
    (∀ d : List Nat, d.all (· < 256) = true →
      base64CrateDecode (base64Encode d) = some d) ∧
    (∀ d : List Nat, d.all (· < 256) = true →
      b64WriterThenReader d = some d) ∧
    (∀ d : List Nat, d.all (· < 256) = true → validUtf8 d = true →
      base64DecodeToString (base64EncodeToString d) = some d) ∧
    (∀ d : List Nat, d.all (· < 256) = true →
      qpRoundTrip d = some d) :=
  ⟨base64_encode_decode, b64WriterThenReader_eq, base64String_roundtrip,
    qpRoundTrip_eq⟩

/-- Witness for `c9_byte_level_roundtrips` at `"hi"` and at the three
bytes `0xFF`, `'='`, `'\n'` (escape, escape, literal). -/
theorem c9_byte_level_roundtrips_witness :
    base64CrateDecode (base64Encode [104, 105]) = some [104, 105] ∧
    b64WriterThenReader [104, 105] = some [104, 105] ∧
    base64DecodeToString (base64EncodeToString [104, 105]) = some [104, 105] ∧
    qpRoundTrip [255, 61, 10] = some [255, 61, 10] :=
  ⟨c9_byte_level_roundtrips.1 [104, 105] (by decide),
    c9_byte_level_roundtrips.2.1 [104, 105] (by decide),
    c9_byte_level_roundtrips.2.2.1 [104, 105] (by decide) (by decide),
    c9_byte_level_roundtrips.2.2.2 [255, 61, 10] (by decide)⟩

/-- C10: once a `PartReader` has reached `FoundMiddleBoundary` or
`FoundFinalBoundary`, every further read returns `Ok(0)` immediately,
consuming nothing from the source, writing nothing, and leaving the whole
reader state (in particular the terminal state) unchanged — so the state
never returns to `LookingForBoundary`. -/
theorem c10_terminal_state_absorbing (st : PartReader) (src : List Nat)
    (space : Nat)
    (h : st.state = PartReaderState.FoundFinalBoundary ∨
      st.state = PartReaderState.FoundMiddleBoundary) :
    st.read src space = some (PartLoopRes.ok st src space []) := by
  unfold PartReader.read
  have hfp : 1 ≤ partFuel st src := by simp [partFuel]
  rcases h with h | h
  · exact partLoop_found _ st src space [] (by rw [h]; simp) hfp
  · exact partLoop_found _ st src space [] (by rw [h]; simp) hfp

/-- Witness for `c10_terminal_state_absorbing` at the concrete terminal
state reached in the C4 run. -/
theorem c10_terminal_state_absorbing_witness :
    (c4FinalState.state = PartReaderState.FoundFinalBoundary ∨
      c4FinalState.state = PartReaderState.FoundMiddleBoundary) ∧
    c4FinalState.read [7, 8] 3 =
      some (PartLoopRes.ok c4FinalState [7, 8] 3 []) :=
  ⟨Or.inl (by decide),
    c10_terminal_state_absorbing c4FinalState [7, 8] 3 (Or.inl (by decide))⟩

end Smtpc
